import Mathlib

/-!
NuLib2 command-line front end: `Main.c`.

A shallow embedding of `Main.c` (the capability table `gValidCombos`, its three
queries, the option parser `ProcessOptions`, the dispatcher `DoWork` and the
entry point `main`) together with the properties of the command/modifier
grammar that are checked against it.

Conventions of the embedding.

* A C string is the list of its characters before the terminating NUL; reading
  at the terminator yields `'\x00'`.  The scanner below still tests for an
  embedded NUL exactly where the C code tests `*cp`.
* `argv` is the list of all tokens, program name included, and `argc` is its
  length.
* `fprintf`/`printf` calls are abstracted to the message that is written: the
  fatal ones to a `ParseError`, the two non-fatal ones to a `Warning`.
* The loop index `idx` is carried next to the tokens `argv[idx..]` that are
  still to be visited.
* What `Main.c` calls but does not define (the state accessors, the archive
  library's feature test, the operation handlers, the two initialisers) is
  either modelled from the spec, and says so, or a parameter.
-/

namespace Nulib2

/-- A C string: its characters before the terminator. -/
abbrev Token := List Char

/-- The terminator of a C string. -/
def NUL : Char := '\x00'

/-- The C library's `tolower` in the "C" locale. -/
def tolower (c : Char) : Char := c.toLower

/-- Modelled from the spec: the `Command` enumeration of `Nulib2.h`, a closed
enumeration of nine commands. -/
inductive Command
  | kCommandAdd
  | kCommandDelete
  | kCommandExtract
  | kCommandExtractToPipe
  | kCommandListShort
  | kCommandListVerbose
  | kCommandListDebug
  | kCommandTest
  | kCommandHelp
  deriving DecidableEq, Repr

open Command

/-- Which modifiers are valid with which commands (`struct ValidCombo`). -/
structure ValidCombo where
  cmd : Command
  okayForPipe : Bool
  filespecRequired : Bool
  modifiers : List Char
  deriving DecidableEq, Repr

/-- The table `gValidCombos` (Main.c, lines 29-39). -/
def gValidCombos : List ValidCombo :=
  [ { cmd := kCommandAdd,           okayForPipe := false, filespecRequired := true,
      modifiers := ['e', 'k', 'c', 'z', '0', 'j', 'r', 'f', 'u'] },
    { cmd := kCommandDelete,        okayForPipe := false, filespecRequired := true,
      modifiers := ['r'] },
    { cmd := kCommandExtract,       okayForPipe := true,  filespecRequired := false,
      modifiers := ['b', 'e', 's', 'l', 'c', 'j', 'r', 'f', 'u'] },
    { cmd := kCommandExtractToPipe, okayForPipe := true,  filespecRequired := false,
      modifiers := ['b', 'l', 'r'] },
    { cmd := kCommandListShort,     okayForPipe := true,  filespecRequired := false,
      modifiers := ['b', 'r'] },
    { cmd := kCommandListVerbose,   okayForPipe := true,  filespecRequired := false,
      modifiers := ['b', 'r'] },
    { cmd := kCommandListDebug,     okayForPipe := true,  filespecRequired := false,
      modifiers := ['b'] },
    { cmd := kCommandTest,          okayForPipe := true,  filespecRequired := false,
      modifiers := ['b', 'r'] },
    { cmd := kCommandHelp,          okayForPipe := false, filespecRequired := false,
      modifiers := [] } ]

/-- The linear search of `FindValidComboEntry` (lines 47-58): the first entry of
the table whose command matches, `none` for the C function's `nil`. -/
def FindValidComboEntry (cmd : Command) : Option ValidCombo :=
  gValidCombos.find? (fun e => decide (e.cmd = cmd))

/-- The C library's `strchr(s, c) != NULL`: the terminator belongs to the
string that is searched. -/
def strchr (s : List Char) (c : Char) : Bool :=
  decide (c ∈ s) || decide (c = NUL)

/-- Whether the modifier is valid with the command (`IsValidModifier`, lines
64-77). -/
def IsValidModifier (cmd : Command) (modifier : Char) : Bool :=
  match FindValidComboEntry cmd with
  | some pvc => if strchr pvc.modifiers modifier = false then false else true
  | none => false

/-- Whether the command can be used with stdin as input (`IsValidOnPipe`,
lines 82-92). -/
def IsValidOnPipe (cmd : Command) : Bool :=
  match FindValidComboEntry cmd with
  | some pvc => pvc.okayForPipe
  | none => false

/-- Whether the command needs a list of files (`IsFilespecRequired`, lines
97-111); the diagnostic of the not-found branch is not recorded. -/
def IsFilespecRequired (cmd : Command) : Bool :=
  match FindValidComboEntry cmd with
  | some pvc => pvc.filespecRequired
  | none => false

/-- Modelled from the spec: the `NulibState` record of `Nulib2.h`/`State.c`,
holding the selected command, one boolean per modifier, the archive path and
the file-spec list (a pointer into `argv`, here the tokens from that position
on, and a count). -/
structure NulibState where
  command : Command
  modUpdate : Bool
  modFreshen : Bool
  modRecurse : Bool
  modJunkPaths : Bool
  modNoCompression : Bool
  modCompressDeflate : Bool
  modCompressBzip2 : Bool
  modComments : Bool
  modBinaryII : Bool
  modConvertText : Bool
  modConvertAll : Bool
  modOverwriteExisting : Bool
  modAddAsDisk : Bool
  modPreserveType : Bool
  modPreserveTypeExtended : Bool
  archiveFilename : Option Token
  filespecPointer : Option (List Token)
  filespecCount : Int
  deriving DecidableEq, Repr

/-- Modelled from the spec: `IsFilenameStdin` of the missing `SysUtils.c`, true
for the single-character path `-`. -/
def IsFilenameStdin (archiveName : Token) : Bool :=
  decide (archiveName.takeWhile (fun c => decide (c ≠ NUL)) = ['-'])

/-- Modelled from the spec: the accessors of the missing `State.c`; each
`NState_Set...` stores its argument in the field it names and leaves every
other field as it was. -/
def NState_SetCommand (s : NulibState) (cmd : Command) : NulibState :=
  { s with command := cmd }

/-- Modelled from the spec: the setter of the `modUpdate` flag. -/
def NState_SetModUpdate (s : NulibState) (val : Bool) : NulibState :=
  { s with modUpdate := val }

/-- Modelled from the spec: the setter of the `modFreshen` flag. -/
def NState_SetModFreshen (s : NulibState) (val : Bool) : NulibState :=
  { s with modFreshen := val }

/-- Modelled from the spec: the setter of the `modRecurse` flag. -/
def NState_SetModRecurse (s : NulibState) (val : Bool) : NulibState :=
  { s with modRecurse := val }

/-- Modelled from the spec: the setter of the `modJunkPaths` flag. -/
def NState_SetModJunkPaths (s : NulibState) (val : Bool) : NulibState :=
  { s with modJunkPaths := val }

/-- Modelled from the spec: the setter of the `modNoCompression` flag. -/
def NState_SetModNoCompression (s : NulibState) (val : Bool) : NulibState :=
  { s with modNoCompression := val }

/-- Modelled from the spec: the setter of the `modCompressDeflate` flag. -/
def NState_SetModCompressDeflate (s : NulibState) (val : Bool) : NulibState :=
  { s with modCompressDeflate := val }

/-- Modelled from the spec: the setter of the `modCompressBzip2` flag. -/
def NState_SetModCompressBzip2 (s : NulibState) (val : Bool) : NulibState :=
  { s with modCompressBzip2 := val }

/-- Modelled from the spec: the setter of the `modComments` flag. -/
def NState_SetModComments (s : NulibState) (val : Bool) : NulibState :=
  { s with modComments := val }

/-- Modelled from the spec: the setter of the `modBinaryII` flag. -/
def NState_SetModBinaryII (s : NulibState) (val : Bool) : NulibState :=
  { s with modBinaryII := val }

/-- Modelled from the spec: the setter of the `modConvertText` flag. -/
def NState_SetModConvertText (s : NulibState) (val : Bool) : NulibState :=
  { s with modConvertText := val }

/-- Modelled from the spec: the setter of the `modConvertAll` flag. -/
def NState_SetModConvertAll (s : NulibState) (val : Bool) : NulibState :=
  { s with modConvertAll := val }

/-- Modelled from the spec: the setter of the `modOverwriteExisting` flag. -/
def NState_SetModOverwriteExisting (s : NulibState) (val : Bool) : NulibState :=
  { s with modOverwriteExisting := val }

/-- Modelled from the spec: the setter of the `modAddAsDisk` flag. -/
def NState_SetModAddAsDisk (s : NulibState) (val : Bool) : NulibState :=
  { s with modAddAsDisk := val }

/-- Modelled from the spec: the setter of the `modPreserveType` flag. -/
def NState_SetModPreserveType (s : NulibState) (val : Bool) : NulibState :=
  { s with modPreserveType := val }

/-- Modelled from the spec: the setter of the `modPreserveTypeExtended` flag. -/
def NState_SetModPreserveTypeExtended (s : NulibState) (val : Bool) : NulibState :=
  { s with modPreserveTypeExtended := val }

/-- Modelled from the spec: the setter of the archive path. -/
def NState_SetArchiveFilename (s : NulibState) (name : Token) : NulibState :=
  { s with archiveFilename := some name }

/-- Modelled from the spec: the setter of the file-spec pointer (`none` for
`nil`). -/
def NState_SetFilespecPointer (s : NulibState) (p : Option (List Token)) : NulibState :=
  { s with filespecPointer := p }

/-- Modelled from the spec: the setter of the file-spec count. -/
def NState_SetFilespecCount (s : NulibState) (n : Int) : NulibState :=
  { s with filespecCount := n }

/-- Modelled from the spec: the answers of the archive library's
`NuTestFeature` for the two optional compression features. -/
structure Features where
  deflate : Bool
  bzip2 : Bool
  deriving DecidableEq, Repr

/-- The fatal diagnostics of `ProcessOptions`, one per `fprintf` that is
followed by `goto fail`. -/
inductive ParseError
  | needCommand
  | unknownCommand (c : Char)
  | unknownModifier (c : Char)
  | badModifier (c : Char)
  | conflict
  | noPipe
  | needFiles
  deriving DecidableEq, Repr

/-- The two non-fatal diagnostics of the `z` case. -/
inductive Warning
  | noBzip2
  | noZlib
  deriving DecidableEq, Repr

/-- Why the scan stopped early: a fatal diagnostic (`goto fail`), or the read
`*(cp-1)` falling before the first character of the token. -/
inductive Stop
  | fail (e : ParseError)
  | readBeforeToken
  deriving DecidableEq, Repr

/-- The parse state together with the warnings written so far. -/
structure Mach where
  ps : NulibState
  warnings : List Warning
  deriving DecidableEq, Repr

/-- The `switch (tolower(*cp))` of the first token (lines 337-350): the command
to set, `none` for the `default` case. -/
def selectCommand (c : Char) : Option Command :=
  match tolower c with
  | 'a' => some kCommandAdd
  | 'x' => some kCommandExtract
  | 'p' => some kCommandExtractToPipe
  | 't' => some kCommandListShort
  | 'v' => some kCommandListVerbose
  | 'g' => some kCommandListDebug
  | 'i' => some kCommandTest
  | 'd' => some kCommandDelete
  | 'h' => some kCommandHelp
  | _ => none

/-- Run a setter on the parse state. -/
def Mach.set (m : Mach) (f : NulibState → Bool → NulibState) : Mach :=
  { m with ps := f m.ps true }

/-- Write a warning. -/
def Mach.warn (m : Mach) (w : Warning) : Mach :=
  { m with warnings := m.warnings ++ [w] }

/-- The `switch (tolower(*cp))` of the modifier loop (lines 356-399).  `before`
holds the characters of the token in front of `cp`, nearest first, so that its
head is `*(cp-1)`; `c` is `*cp` and `next` is `*(cp+1)`.  The boolean of the
result tells whether the `zz` case advanced `cp` by one. -/
def applyModifier (feat : Features) (before : List Char) (c next : Char) (m : Mach) :
    Except Stop (Mach × Bool) :=
  match tolower c with
  | 'u' => .ok (m.set NState_SetModUpdate, false)
  | 'f' => .ok (m.set NState_SetModFreshen, false)
  | 'r' => .ok (m.set NState_SetModRecurse, false)
  | 'j' => .ok (m.set NState_SetModJunkPaths, false)
  | '0' => .ok (m.set NState_SetModNoCompression, false)
  | 's' => .ok (m.set NState_SetModOverwriteExisting, false)
  | 'k' => .ok (m.set NState_SetModAddAsDisk, false)
  | 'c' => .ok (m.set NState_SetModComments, false)
  | 'b' => .ok (m.set NState_SetModBinaryII, false)
  | 'z' =>
    if next = 'z' then
      if feat.bzip2 = true then .ok (m.set NState_SetModCompressBzip2, true)
      else .ok (m.warn Warning.noBzip2, true)
    else
      if feat.deflate = true then .ok (m.set NState_SetModCompressDeflate, false)
      else .ok (m.warn Warning.noZlib, false)
  | 'e' =>
    match before with
    | [] => .error Stop.readBeforeToken
    | p :: _ =>
      if p = 'e' then .ok (m.set NState_SetModPreserveTypeExtended, false)
      else .ok (m.set NState_SetModPreserveType, false)
  | 'l' =>
    match before with
    | [] => .error Stop.readBeforeToken
    | p :: _ =>
      if p = 'l' then .ok (m.set NState_SetModConvertAll, false)
      else .ok (m.set NState_SetModConvertText, false)
  | _ => .error (Stop.fail (ParseError.unknownModifier c))

/-- The loop `while (*cp != '\0')` over the modifier characters of one token
(lines 355-410): `before` is what lies in front of `cp`, nearest first, the list
argument what lies from `cp` on.  With one character left `*(cp+1)` is the
terminator.  After the `zz` case `cp` stands on the second `z`, which is the
character `IsValidModifier` is asked about. -/
def scanModifiers (feat : Features) : List Char → List Char → Mach → Except (Stop × Mach) Mach
  | _, [], m => .ok m
  | before, [c], m =>
    if c = NUL then .ok m
    else
      match applyModifier feat before c NUL m with
      | .error e => .error (e, m)
      | .ok (m1, _) =>
        if IsValidModifier m1.ps.command (tolower c) = false then
          .error (Stop.fail (ParseError.badModifier (tolower c)), m1)
        else .ok m1
  | before, c :: d :: rest, m =>
    if c = NUL then .ok m
    else
      match applyModifier feat before c d m with
      | .error e => .error (e, m)
      | .ok (m1, true) =>
        if IsValidModifier m1.ps.command (tolower d) = false then
          .error (Stop.fail (ParseError.badModifier (tolower d)), m1)
        else scanModifiers feat (d :: c :: before) rest m1
      | .ok (m1, false) =>
        if IsValidModifier m1.ps.command (tolower c) = false then
          .error (Stop.fail (ParseError.badModifier (tolower c)), m1)
        else scanModifiers feat (c :: before) (d :: rest) m1

/-- The character a C string holds at an offset not beyond its terminator. -/
def charAt (s : Token) (i : Nat) : Char := s.getD i NUL

/-- The step `if (*cp == '-') cp++;` at the start of a token: what lies in
front of `cp` afterwards (nearest first) and what lies from `cp` on. -/
def skipHyphen (tok : Token) : List Char × List Char :=
  match tok with
  | [] => ([], [])
  | c :: cs => if c = '-' then (['-'], cs) else ([], c :: cs)

/-- The loop `for (idx = 1; idx < argc; idx++)` of `ProcessOptions` (lines
316-411), run on the tokens `argv[idx..]`.  A normal exit returns the tokens `argv[idx..]` for the
final value of `idx`: all of them from the token on which the loop did `break`,
or none when `idx` reached `argc`. -/
def scanArgs (feat : Features) :
    Nat → List Token → Mach → Except (Stop × Mach) (Mach × List Token)
  | _, [], m => .ok (m, [])
  | idx, tok :: toks, m =>
    if 1 < idx ∧ charAt tok 0 ≠ '-' then .ok (m, tok :: toks)
    else
      match skipHyphen tok with
      | (_, []) =>
        if idx = 1 then .error (Stop.fail ParseError.needCommand, m) else .ok (m, tok :: toks)
      | (before, c :: cs) =>
        if c = NUL then
          if idx = 1 then .error (Stop.fail ParseError.needCommand, m)
          else .ok (m, tok :: toks)
        else if idx = 1 then
          match selectCommand c with
          | none => .error (Stop.fail (ParseError.unknownCommand c), m)
          | some cmd =>
            match scanModifiers feat (c :: before) cs
                { m with ps := NState_SetCommand m.ps cmd } with
            | .error e => .error e
            | .ok m1 => scanArgs feat (idx + 1) toks m1
        else
          match scanModifiers feat before (c :: cs) m with
          | .error e => .error e
          | .ok m1 => scanArgs feat (idx + 1) toks m1

/-- How a call of `ProcessOptions` ends. -/
inductive Outcome
  | ok
  | help
  | usage
  | fail (e : ParseError)
  | assertFailed
  | readBeforeToken
  deriving DecidableEq, Repr

/-- The value `ProcessOptions` returns, when it returns: `0` after a complete
parse, `-1` after the extended help, the usage text or a fatal diagnostic. -/
def Outcome.ret : Outcome → Option Int
  | Outcome.ok => some 0
  | Outcome.help => some (-1)
  | Outcome.usage => some (-1)
  | Outcome.fail _ => some (-1)
  | Outcome.assertFailed => none
  | Outcome.readBeforeToken => none

/-- What a call of `ProcessOptions` leaves behind: how it ended, the parse
state `*pState`, and the warnings written. -/
structure Result where
  outcome : Outcome
  ps : NulibState
  warnings : List Warning
  deriving DecidableEq, Repr

/-- The statements of `ProcessOptions` that follow the token loop (lines
413-463): the check of `-0` against `-z`, the archive name with its stdin check,
and the file specification.  `m` is the state the loop left and `rest` the tokens
`argv[idx..]` for the value of `idx` the loop left.  `Outcome.assertFailed`
is the violation of `Assert(idx < argc)`, past which `argv[idx]` is not a
token. -/
def finishOptions (m : Mach) (rest : List Token) : Result :=
  if m.ps.modNoCompression = true ∧ m.ps.modCompressDeflate = true then
    { outcome := Outcome.fail ParseError.conflict, ps := m.ps, warnings := m.warnings }
  else
    match rest with
    | [] => { outcome := Outcome.assertFailed, ps := m.ps, warnings := m.warnings }
    | arch :: files =>
      let ps1 := NState_SetArchiveFilename m.ps arch
      if IsFilenameStdin arch = true ∧ IsValidOnPipe ps1.command = false then
        { outcome := Outcome.fail ParseError.noPipe, ps := ps1, warnings := m.warnings }
      else
        match files with
        | f :: fs =>
          { outcome := Outcome.ok,
            ps := NState_SetFilespecCount (NState_SetFilespecPointer ps1 (some (f :: fs)))
                    ((f :: fs).length : Int),
            warnings := m.warnings }
        | [] =>
          if IsFilespecRequired ps1.command = true then
            { outcome := Outcome.fail ParseError.needFiles, ps := ps1,
              warnings := m.warnings }
          else
            { outcome := Outcome.ok,
              ps := NState_SetFilespecCount (NState_SetFilespecPointer ps1 none) 0,
              warnings := m.warnings }

/-- The function `ProcessOptions(pState, argc, argv)` (lines 287-470), with
`argc` the length of `argv`.  `Outcome.help` is the branch that calls `DoHelp(nil)` and
`Outcome.usage` the one that calls `Usage`. -/
def ProcessOptions (feat : Features) (pState : NulibState) (argv : List Token) : Result :=
  let argc := argv.length
  let arg1 := argv.getD 1 []
  if argc = 2 ∧ (tolower (charAt arg1 0) = 'h' ∨
      (charAt arg1 0 = '-' ∧
        tolower (Char.ofNat (if charAt arg1 1 = 'h' then 1 else 0)) ≠ NUL)) then
    { outcome := Outcome.help, ps := pState, warnings := [] }
  else if argc < 3 then
    { outcome := Outcome.usage, ps := pState, warnings := [] }
  else
    match scanArgs feat 1 (argv.drop 1) { ps := pState, warnings := [] } with
    | .error (Stop.fail e, m) =>
      { outcome := Outcome.fail e, ps := m.ps, warnings := m.warnings }
    | .error (Stop.readBeforeToken, m) =>
      { outcome := Outcome.readBeforeToken, ps := m.ps, warnings := m.warnings }
    | .ok (m, rest) => finishOptions m rest

/-- A parse state in which no modifier flag is set. -/
def NulibState.modsClear (s : NulibState) : Prop :=
  s.modUpdate = false ∧ s.modFreshen = false ∧ s.modRecurse = false ∧
  s.modJunkPaths = false ∧ s.modNoCompression = false ∧ s.modCompressDeflate = false ∧
  s.modCompressBzip2 = false ∧ s.modComments = false ∧ s.modBinaryII = false ∧
  s.modConvertText = false ∧ s.modConvertAll = false ∧ s.modOverwriteExisting = false ∧
  s.modAddAsDisk = false ∧ s.modPreserveType = false ∧ s.modPreserveTypeExtended = false

instance (s : NulibState) : Decidable s.modsClear := by
  unfold NulibState.modsClear; infer_instance

/-- A parse state with every modifier flag clear, no archive path and no
file-spec list; its command field is a placeholder that a parse overwrites. -/
def clearState : NulibState :=
  { command := kCommandHelp, modUpdate := false, modFreshen := false, modRecurse := false,
    modJunkPaths := false, modNoCompression := false, modCompressDeflate := false,
    modCompressBzip2 := false, modComments := false, modBinaryII := false,
    modConvertText := false, modConvertAll := false, modOverwriteExisting := false,
    modAddAsDisk := false, modPreserveType := false, modPreserveTypeExtended := false,
    archiveFilename := none, filespecPointer := none, filespecCount := 0 }

/-- Both optional compression features present. -/
def allFeatures : Features := { deflate := true, bzip2 := true }

/-! ## Spec-side vocabulary -/

/-- The fatal diagnostics of the modifier loop: an unknown modifier letter, or
a letter that is not valid with the command. -/
def ParseError.isModifierError : ParseError → Bool
  | ParseError.unknownModifier _ => true
  | ParseError.badModifier _ => true
  | _ => false

/-- The fatal diagnostics of the command switch: no command letter, or an
unknown one. -/
def ParseError.isCommandError : ParseError → Bool
  | ParseError.needCommand => true
  | ParseError.unknownCommand _ => true
  | _ => false

/-- A stop of the scan with a modifier diagnostic. -/
def Stop.isModifierError : Stop → Bool
  | Stop.fail e => e.isModifierError
  | Stop.readBeforeToken => false

/-- Well-formed argument tokens: a C string holds no NUL before its
terminator. -/
def WellFormed (toks : List Token) : Prop := ∀ t ∈ toks, NUL ∉ t

instance (toks : List Token) : Decidable (WellFormed toks) := by
  unfold WellFormed; infer_instance

/-- A token at position 2 or later that ends the modifier-scanning phase: it
does not begin with a hyphen, or it is exactly `-`. -/
def endsModifiers (t : Token) : Bool :=
  decide (t.head? ≠ some '-' ∨ t = ['-'])

/-- A token at position 2 or later that is consumed as a modifier bundle. -/
def isBundle (t : Token) : Bool := !endsModifiers t

/-- The command token without its optional leading hyphen. -/
def afterHyphen (t : Token) : Token :=
  match t with
  | [] => []
  | c :: cs => if c = '-' then cs else c :: cs

/-! ## The capability table against the spec's table -/

/-- The legal modifiers of each command, as the table of the spec lists
them. -/
def specLegalModifiers : Command → List Char
  | kCommandAdd => ['e', 'k', 'c', 'z', '0', 'j', 'r', 'f', 'u']
  | kCommandDelete => ['r']
  | kCommandExtract => ['b', 'e', 's', 'l', 'c', 'j', 'r', 'f', 'u']
  | kCommandExtractToPipe => ['b', 'l', 'r']
  | kCommandListShort => ['b', 'r']
  | kCommandListVerbose => ['b', 'r']
  | kCommandListDebug => ['b']
  | kCommandTest => ['b', 'r']
  | kCommandHelp => []

/-- The letters of the modifier alphabet. -/
def modifierAlphabet : List Char :=
  ['u', 'f', 'r', 'j', '0', 's', 'k', 'c', 'b', 'z', 'e', 'l']

/-- The letters that select a command. -/
def commandLetters : List Char := ['a', 'x', 'p', 't', 'v', 'g', 'i', 'd', 'h']

/-- The "Pipe OK" column of the spec's table. -/
def specPipeAllowed : Command → Bool
  | kCommandAdd => false
  | kCommandDelete => false
  | kCommandExtract => true
  | kCommandExtractToPipe => true
  | kCommandListShort => true
  | kCommandListVerbose => true
  | kCommandListDebug => true
  | kCommandTest => true
  | kCommandHelp => false

/-- The "Filespec required" column of the spec's table. -/
def specFilespecRequired : Command → Bool
  | kCommandAdd => true
  | kCommandDelete => true
  | kCommandExtract => false
  | kCommandExtractToPipe => false
  | kCommandListShort => false
  | kCommandListVerbose => false
  | kCommandListDebug => false
  | kCommandTest => false
  | kCommandHelp => false

/-- The fixed letter-to-command mapping of the spec. -/
def commandLetterTable : List (Char × Command) :=
  [('a', kCommandAdd), ('x', kCommandExtract), ('p', kCommandExtractToPipe),
   ('t', kCommandListShort), ('v', kCommandListVerbose), ('g', kCommandListDebug),
   ('i', kCommandTest), ('d', kCommandDelete), ('h', kCommandHelp)]

/-- The command a character selects by the spec's mapping, case-insensitively;
`none` for every other character. -/
def specCommandOfLetter (c : Char) : Option Command :=
  commandLetterTable.lookup c.toLower

/-- The command the spec selects from token 1: strip an optional leading
hyphen, then map the first remaining character; `none` when that character is
missing or unmapped. -/
def specCommandOfToken (t : Token) : Option Command :=
  (afterHyphen t).head?.bind specCommandOfLetter

/-- The file-spec list a state records: `filespecCount` tokens starting at
`filespecPointer`, and no token for the nil pointer. -/
def NulibState.filespecs (s : NulibState) : List Token :=
  match s.filespecPointer with
  | some p => p.take s.filespecCount.toNat
  | none => []

/-- An argument vector written as strings. -/
def argvOf (l : List String) : List Token := l.map String.toList

/-! ## The dispatcher and the entry point -/

/-- Modelled from the spec: the result values of the archive library
(`NuError` of the missing `NufxLib.h`), of which the code tells apart the
success value `kNuErrNone`; `kNuErrInternal` is the failure `DoWork` itself
reports, `failure` any other one. -/
inductive NuError
  | kNuErrNone
  | kNuErrInternal
  | failure (code : Nat)
  deriving DecidableEq, Repr

/-- The operation handlers `DoWork` can call. -/
inductive Handler
  | DoAdd
  | DoExtract
  | DoExtractToPipe
  | DoTest
  | DoListShort
  | DoListVerbose
  | DoListDebug
  | DoDelete
  | DoHelp
  deriving DecidableEq, Repr

/-- The function `DoHelp` (lines 186-281), which prints the extended help and
returns `kNuErrNone`; its argument may be `nil`. -/
def DoHelp (_pState : Option NulibState) : NuError := NuError.kNuErrNone

/-- A call of one handler.  `DoHelp` is the function of `Main.c`; the other
eight are not under `src/` and are the parameter `ext`, which gives the value
each returns on a state. -/
def callHandler (ext : Handler → NulibState → NuError) (h : Handler) (pState : NulibState) :
    NuError :=
  match h with
  | Handler.DoHelp => DoHelp (some pState)
  | other => ext other pState

/-- What a call of `DoWork` did: the handlers it called, in order, whether the
`default` branch ran ("unexpected command", `Assert(0)`), and the value it
returned. -/
structure WorkResult where
  called : List Handler
  unexpected : Bool
  ret : Int
  deriving DecidableEq, Repr

/-- The last statement of `DoWork`, `return (err != kNuErrNone)`. -/
def workStatus (err : NuError) : Int :=
  if err ≠ NuError.kNuErrNone then 1 else 0

/-- The `switch` of `DoWork` (lines 484-518) on the value of the command field:
`some` of an enumerator, or `none` for a value that is none of the nine, which
is what the `default` branch is for. -/
def DoWorkSwitch (ext : Handler → NulibState → NuError) (pState : NulibState) :
    Option Command → WorkResult
  | some kCommandAdd =>
    { called := [Handler.DoAdd], unexpected := false,
      ret := workStatus (callHandler ext Handler.DoAdd pState) }
  | some kCommandExtract =>
    { called := [Handler.DoExtract], unexpected := false,
      ret := workStatus (callHandler ext Handler.DoExtract pState) }
  | some kCommandExtractToPipe =>
    { called := [Handler.DoExtractToPipe], unexpected := false,
      ret := workStatus (callHandler ext Handler.DoExtractToPipe pState) }
  | some kCommandTest =>
    { called := [Handler.DoTest], unexpected := false,
      ret := workStatus (callHandler ext Handler.DoTest pState) }
  | some kCommandListShort =>
    { called := [Handler.DoListShort], unexpected := false,
      ret := workStatus (callHandler ext Handler.DoListShort pState) }
  | some kCommandListVerbose =>
    { called := [Handler.DoListVerbose], unexpected := false,
      ret := workStatus (callHandler ext Handler.DoListVerbose pState) }
  | some kCommandListDebug =>
    { called := [Handler.DoListDebug], unexpected := false,
      ret := workStatus (callHandler ext Handler.DoListDebug pState) }
  | some kCommandDelete =>
    { called := [Handler.DoDelete], unexpected := false,
      ret := workStatus (callHandler ext Handler.DoDelete pState) }
  | some kCommandHelp =>
    { called := [Handler.DoHelp], unexpected := false,
      ret := workStatus (callHandler ext Handler.DoHelp pState) }
  | none =>
    { called := [], unexpected := true, ret := workStatus NuError.kNuErrInternal }

/-- The function `DoWork(pState)` (lines 479-521): the switch on
`NState_GetCommand(pState)`, which in a `NulibState` is one of the nine
enumerators. -/
def DoWork (ext : Handler → NulibState → NuError) (pState : NulibState) : WorkResult :=
  DoWorkSwitch ext pState (some pState.command)

/-- What a run of `main` did: the argument of `exit` (`none` when
`ProcessOptions` does not return), and the handlers `DoWork` called. -/
structure MainResult where
  status : Option Int
  called : List Handler
  deriving DecidableEq, Repr

/-- The function `main` (lines 526-562).  `init` is the state `NState_Init`
delivers, `none` when it fails; `extraInit` is `NState_ExtraInit`, giving the
state it leaves or `none` when it fails; both are not under `src/`. -/
def main (feat : Features) (init : Option NulibState)
    (extraInit : NulibState → Option NulibState) (ext : Handler → NulibState → NuError)
    (argv : List Token) : MainResult :=
  match init with
  | none => { status := some 1, called := [] }
  | some pState =>
    match (ProcessOptions feat pState argv).outcome.ret with
    | none => { status := none, called := [] }
    | some v =>
      if v < 0 then { status := some 2, called := [] }
      else
        match extraInit (ProcessOptions feat pState argv).ps with
        | none => { status := some 1, called := [] }
        | some s => { status := some (DoWork ext s).ret, called := (DoWork ext s).called }

/-- The handler the spec maps each command to. -/
def specHandler : Command → Handler
  | kCommandAdd => Handler.DoAdd
  | kCommandExtract => Handler.DoExtract
  | kCommandExtractToPipe => Handler.DoExtractToPipe
  | kCommandTest => Handler.DoTest
  | kCommandListShort => Handler.DoListShort
  | kCommandListVerbose => Handler.DoListVerbose
  | kCommandListDebug => Handler.DoListDebug
  | kCommandDelete => Handler.DoDelete
  | kCommandHelp => Handler.DoHelp

/-- External handlers that all report success. -/
def allSucceed : Handler → NulibState → NuError := fun _ _ => NuError.kNuErrNone

/-- External handlers that all report the failure code 7. -/
def allFail : Handler → NulibState → NuError := fun _ _ => NuError.failure 7

/-! ## The first illegal modifier -/

/-- The modifier characters a parse scans, in scan order: what follows the
command letter in token 1, then what follows the leading hyphen in each later
modifier bundle. -/
def scannedModifiers (argv : List Token) : List Char :=
  (afterHyphen (argv.getD 1 [])).tail ++
    ((argv.drop 2).takeWhile isBundle).flatMap List.tail

/-- A character that is not legal for the command: lowercased, it is not a
valid modifier of it. -/
def illegalFor (cmd : Command) (c : Char) : Bool := !IsValidModifier cmd (tolower c)

/-- The diagnostic the spec gives for an illegal character: the
illegal-modifier one, naming the lowercased letter, when that letter is in the
modifier alphabet, and the unknown-modifier one otherwise. -/
def specModifierError (c : Char) : ParseError :=
  if tolower c ∈ modifierAlphabet then ParseError.badModifier (tolower c)
  else ParseError.unknownModifier c

/-! # Theorems -/

/-! ## The modifier switch -/

theorem applyModifier_ok {feat : Features} {before : List Char} {c n : Char} {m m1 : Mach}
    {adv : Bool} (h : applyModifier feat before c n m = .ok (m1, adv)) :
    m1.ps.command = m.ps.command ∧ (adv = true → tolower c = 'z' ∧ n = 'z') ∧
      tolower c ≠ NUL := by
  unfold applyModifier at h
  split at h
  case h_10 hz =>
    have hne : tolower c ≠ NUL := by rw [hz]; decide
    split at h <;> split at h <;> cases h
    · exact ⟨rfl, fun _ => ⟨hz, by assumption⟩, hne⟩
    · exact ⟨rfl, fun _ => ⟨hz, by assumption⟩, hne⟩
    · exact ⟨rfl, (fun h => by cases h), hne⟩
    · exact ⟨rfl, (fun h => by cases h), hne⟩
  case h_11 he =>
    have hne : tolower c ≠ NUL := by rw [he]; decide
    split at h
    · cases h
    · split at h <;> cases h <;> exact ⟨rfl, (fun h => by cases h), hne⟩
  case h_12 hl =>
    have hne : tolower c ≠ NUL := by rw [hl]; decide
    split at h
    · cases h
    · split at h <;> cases h <;> exact ⟨rfl, (fun h => by cases h), hne⟩
  case h_13 => cases h
  all_goals
    rename_i heq
    cases h
    exact ⟨rfl, (fun h => by cases h), by rw [heq]; decide⟩

theorem applyModifier_error {feat : Features} {before : List Char} {c n : Char} {m : Mach}
    {e : Stop} (h : applyModifier feat before c n m = .error e) (hb : before ≠ []) :
    e = Stop.fail (ParseError.unknownModifier c) := by
  unfold applyModifier at h
  split at h
  case h_10 => split at h <;> split at h <;> cases h
  case h_11 =>
    split at h
    · exact absurd rfl hb
    · split at h <;> cases h
  case h_12 =>
    split at h
    · exact absurd rfl hb
    · split at h <;> cases h
  case h_13 => cases h; rfl
  all_goals cases h

/-! ## The modifier loop -/

theorem scanModifiers_spec (feat : Features) :
    ∀ (n : Nat) (cs before : List Char) (m : Mach),
      cs.length ≤ n → before ≠ [] → NUL ∉ cs →
      (∀ m1, scanModifiers feat before cs m = .ok m1 →
        m1.ps.command = m.ps.command ∧
        ∀ c ∈ cs, IsValidModifier m.ps.command (tolower c) = true ∧ tolower c ≠ NUL) ∧
      (∀ s m1, scanModifiers feat before cs m = .error (s, m1) →
        m1.ps.command = m.ps.command ∧ s.isModifierError = true) := by
  intro n
  induction n with
  | zero =>
    intro cs before m hlen _ _
    have hcs : cs = [] := List.length_eq_zero.mp (Nat.le_zero.mp hlen)
    subst hcs
    constructor
    · intro m1 h
      rw [scanModifiers] at h
      cases h
      exact ⟨rfl, by simp⟩
    · intro s m1 h
      rw [scanModifiers] at h
      cases h
  | succ n ih =>
    intro cs before m hlen hb hnul
    match cs, hlen, hnul with
    | [], _, _ =>
      constructor
      · intro m1 h
        rw [scanModifiers] at h
        cases h
        exact ⟨rfl, by simp⟩
      · intro s m1 h
        rw [scanModifiers] at h
        cases h
    | [c], _, hnul =>
      have hc : ¬ c = NUL := fun hc => hnul (by simp [hc])
      rw [scanModifiers]
      simp only [if_neg hc]
      cases happ : applyModifier feat before c NUL m with
      | error e =>
        have he := applyModifier_error happ hb
        subst he
        constructor
        · intro m1 h; cases h
        · intro s m1 h; cases h; exact ⟨rfl, rfl⟩
      | ok r =>
        obtain ⟨m2, adv⟩ := r
        obtain ⟨hcmd, -, hne⟩ := applyModifier_ok happ
        by_cases hv : IsValidModifier m2.ps.command (tolower c) = false
        · simp only [if_pos hv]
          constructor
          · intro m1 h; cases h
          · intro s m1 h; cases h; exact ⟨hcmd, rfl⟩
        · simp only [if_neg hv]
          constructor
          · intro m1 h
            cases h
            refine ⟨hcmd, ?_⟩
            intro x hx
            have hx : x = c := by simpa using hx
            subst hx
            rw [← hcmd]
            exact ⟨by simpa using hv, hne⟩
          · intro s m1 h; cases h
    | c :: d :: rest, hlen, hnul =>
      have hc : ¬ c = NUL := fun hc => hnul (by simp [hc])
      have hnul1 : NUL ∉ d :: rest := fun h => hnul (List.mem_cons_of_mem _ h)
      have hnul2 : NUL ∉ rest := fun h => hnul1 (List.mem_cons_of_mem _ h)
      have hlen1 : (d :: rest).length ≤ n := by simp at hlen ⊢; omega
      have hlen2 : rest.length ≤ n := by simp at hlen ⊢; omega
      rw [scanModifiers]
      simp only [if_neg hc]
      cases happ : applyModifier feat before c d m with
      | error e =>
        have he := applyModifier_error happ hb
        subst he
        constructor
        · intro m1 h; cases h
        · intro s m1 h; cases h; exact ⟨rfl, rfl⟩
      | ok r =>
        obtain ⟨m2, adv⟩ := r
        obtain ⟨hcmd, hadv, hne⟩ := applyModifier_ok happ
        cases adv with
        | true =>
          obtain ⟨hz, hd⟩ := hadv rfl
          by_cases hv : IsValidModifier m2.ps.command (tolower d) = false
          · simp only [if_pos hv]
            constructor
            · intro m1 h; cases h
            · intro s m1 h; cases h; exact ⟨hcmd, rfl⟩
          · simp only [if_neg hv]
            have hrec := ih rest (d :: c :: before) m2 hlen2 (by simp) hnul2
            constructor
            · intro m1 h
              obtain ⟨h1, h2⟩ := hrec.1 m1 h
              refine ⟨h1.trans hcmd, ?_⟩
              have hdz : tolower d = 'z' := by rw [hd]; rfl
              have hvd : IsValidModifier m.ps.command (tolower d) = true ∧
                  tolower d ≠ NUL := by
                refine ⟨?_, by rw [hdz]; decide⟩
                rw [← hcmd]; simpa using hv
              intro x hx
              rcases List.mem_cons.mp hx with hx | hx
              · subst hx
                rw [hz, ← hdz]; exact hvd
              · rcases List.mem_cons.mp hx with hx | hx
                · subst hx; exact hvd
                · rw [← hcmd]; exact h2 x hx
            · intro s m1 h
              obtain ⟨h1, h2⟩ := hrec.2 s m1 h
              exact ⟨h1.trans hcmd, h2⟩
        | false =>
          by_cases hv : IsValidModifier m2.ps.command (tolower c) = false
          · simp only [if_pos hv]
            constructor
            · intro m1 h; cases h
            · intro s m1 h; cases h; exact ⟨hcmd, rfl⟩
          · simp only [if_neg hv]
            have hrec := ih (d :: rest) (c :: before) m2 hlen1 (by simp) hnul1
            constructor
            · intro m1 h
              obtain ⟨h1, h2⟩ := hrec.1 m1 h
              refine ⟨h1.trans hcmd, ?_⟩
              intro x hx
              rcases List.mem_cons.mp hx with hx | hx
              · subst hx; rw [← hcmd]; exact ⟨by simpa using hv, hne⟩
              · rw [← hcmd]; exact h2 x hx
            · intro s m1 h
              obtain ⟨h1, h2⟩ := hrec.2 s m1 h
              exact ⟨h1.trans hcmd, h2⟩

/-! ## The token loop -/

theorem isBundle_nil : isBundle [] = false := by decide

theorem isBundle_hyphen : isBundle ['-'] = false := by decide

theorem isBundle_cons_of_ne {c : Char} (cs : List Char) (h : c ≠ '-') :
    isBundle (c :: cs) = false := by
  simp [isBundle, endsModifiers, h]

theorem isBundle_hyphen_cons (c : Char) (cs : List Char) :
    isBundle ('-' :: c :: cs) = true := by
  simp [isBundle, endsModifiers]

theorem scanArgs_later (feat : Features) :
    ∀ (toks : List Token) (idx : Nat) (m : Mach), 1 < idx → WellFormed toks →
      (∀ m1 rest, scanArgs feat idx toks m = .ok (m1, rest) →
        m1.ps.command = m.ps.command ∧ rest = toks.dropWhile isBundle ∧
        ∀ t ∈ toks.takeWhile isBundle, ∀ c ∈ t.tail,
          IsValidModifier m.ps.command (tolower c) = true ∧ tolower c ≠ NUL) ∧
      (∀ s m1, scanArgs feat idx toks m = .error (s, m1) →
        m1.ps.command = m.ps.command ∧ s.isModifierError = true) := by
  intro toks
  induction toks with
  | nil =>
    intro idx m _ _
    constructor
    · intro m1 rest h
      rw [scanArgs] at h
      cases h
      exact ⟨rfl, rfl, by simp⟩
    · intro s m1 h
      rw [scanArgs] at h
      cases h
  | cons tok toks ih =>
    intro idx m hidx hwf
    have hidx1 : ¬ idx = 1 := by omega
    have hwf1 : WellFormed toks := fun t ht => hwf t (List.mem_cons_of_mem _ ht)
    have hbreak : ∀ (hb : isBundle tok = false),
        (∀ m1 rest, (Except.ok (m, tok :: toks) : Except (Stop × Mach) (Mach × List Token))
            = .ok (m1, rest) →
          m1.ps.command = m.ps.command ∧ rest = (tok :: toks).dropWhile isBundle ∧
          ∀ t ∈ (tok :: toks).takeWhile isBundle, ∀ c ∈ t.tail,
            IsValidModifier m.ps.command (tolower c) = true ∧ tolower c ≠ NUL) ∧
        (∀ s m1, (Except.ok (m, tok :: toks) : Except (Stop × Mach) (Mach × List Token))
            = .error (s, m1) →
          m1.ps.command = m.ps.command ∧ s.isModifierError = true) := by
      intro hb
      constructor
      · intro m1 rest h
        cases h
        refine ⟨rfl, ?_, ?_⟩
        · simp [List.dropWhile, hb]
        · simp [List.takeWhile, hb]
      · intro s m1 h; cases h
    rw [scanArgs]
    match tok, hwf, hbreak with
    | [], _, hbreak =>
      have h0 : 1 < idx ∧ charAt [] 0 ≠ '-' := ⟨hidx, by decide⟩
      simp only [if_pos h0]
      exact hbreak isBundle_nil
    | [c], _, hbreak =>
      by_cases hc : c = '-'
      · subst hc
        have h0 : ¬ (1 < idx ∧ charAt ['-'] 0 ≠ '-') := by
          intro h; exact h.2 rfl
        simp only [if_neg h0, skipHyphen, if_true, if_neg hidx1]
        exact hbreak isBundle_hyphen
      · have h0 : 1 < idx ∧ charAt [c] 0 ≠ '-' := ⟨hidx, by simpa [charAt] using hc⟩
        simp only [if_pos h0]
        exact hbreak (isBundle_cons_of_ne _ hc)
    | c :: d :: cs, hwf, hbreak =>
      by_cases hc : c = '-'
      · subst hc
        have h0 : ¬ (1 < idx ∧ charAt ('-' :: d :: cs) 0 ≠ '-') := by
          intro h; exact h.2 rfl
        have hnul : NUL ∉ d :: cs := fun h =>
          hwf _ (List.mem_cons_self _ _) (List.mem_cons_of_mem _ h)
        have hd : ¬ d = NUL := fun hd => hnul (by simp [hd])
        simp only [if_neg h0, skipHyphen, if_true, if_neg hidx1, if_neg hd]
        have hsm := scanModifiers_spec feat (d :: cs).length (d :: cs) ['-'] m
          (le_refl _) (by simp) hnul
        cases hscan : scanModifiers feat ['-'] (d :: cs) m with
        | error e =>
          obtain ⟨s, m2⟩ := e
          constructor
          · intro m1 rest h; cases h
          · intro s1 m1 h
            cases h
            exact hsm.2 _ _ hscan
        | ok m2 =>
          obtain ⟨hcmd, hval⟩ := hsm.1 m2 hscan
          have hrec := ih (idx + 1) m2 (by omega) hwf1
          constructor
          · intro m1 rest h
            obtain ⟨h1, h2, h3⟩ := hrec.1 m1 rest h
            refine ⟨h1.trans hcmd, ?_, ?_⟩
            · simp [List.dropWhile, isBundle_hyphen_cons, h2]
            · intro t ht
              simp only [List.takeWhile, isBundle_hyphen_cons] at ht
              rcases List.mem_cons.mp ht with ht | ht
              · subst ht; exact hval
              · rw [← hcmd]; exact h3 t ht
          · intro s m1 h
            obtain ⟨h1, h2⟩ := hrec.2 s m1 h
            exact ⟨h1.trans hcmd, h2⟩
      · have h0 : 1 < idx ∧ charAt (c :: d :: cs) 0 ≠ '-' :=
          ⟨hidx, by simpa [charAt] using hc⟩
        simp only [if_pos h0]
        exact hbreak (isBundle_cons_of_ne _ hc)

theorem skipHyphen_eq (t : Token) : skipHyphen t = ((skipHyphen t).1, afterHyphen t) := by
  cases t with
  | nil => rfl
  | cons c cs =>
    by_cases hc : c = '-'
    · simp [skipHyphen, afterHyphen, hc]
    · simp [skipHyphen, afterHyphen, hc]

theorem mem_afterHyphen {t : Token} {x : Char} (h : x ∈ afterHyphen t) : x ∈ t := by
  cases t with
  | nil => simp [afterHyphen] at h
  | cons c cs =>
    by_cases hc : c = '-'
    · simp only [afterHyphen, if_pos hc] at h
      exact List.mem_cons_of_mem _ h
    · simpa only [afterHyphen, if_neg hc] using h

theorem selectCommand_ne_NUL {c : Char} {cmd : Command} (h : selectCommand c = some cmd) :
    c ≠ NUL := by
  intro hc
  subst hc
  have h0 : selectCommand NUL = none := by decide
  rw [h0] at h
  cases h

theorem scanArgs_first (feat : Features) (t1 : Token) (toks : List Token) (m : Mach)
    (hwf : WellFormed (t1 :: toks)) :
    (∀ m1 rest, scanArgs feat 1 (t1 :: toks) m = .ok (m1, rest) →
      ∃ c cmd, (afterHyphen t1).head? = some c ∧ selectCommand c = some cmd ∧
        m1.ps.command = cmd ∧ rest = toks.dropWhile isBundle ∧
        (∀ x ∈ (afterHyphen t1).tail,
          IsValidModifier cmd (tolower x) = true ∧ tolower x ≠ NUL) ∧
        ∀ t ∈ toks.takeWhile isBundle, ∀ x ∈ t.tail,
          IsValidModifier cmd (tolower x) = true ∧ tolower x ≠ NUL) ∧
    (∀ s m1, scanArgs feat 1 (t1 :: toks) m = .error (s, m1) →
      ((afterHyphen t1).head?.bind selectCommand = none ∧ m1 = m ∧
        ∃ e, s = Stop.fail e ∧ e.isCommandError = true) ∨
      (∃ cmd, (afterHyphen t1).head?.bind selectCommand = some cmd ∧
        m1.ps.command = cmd ∧ s.isModifierError = true)) := by
  have hwf1 : WellFormed toks := fun t ht => hwf t (List.mem_cons_of_mem _ ht)
  have hnul : NUL ∉ afterHyphen t1 := fun h =>
    hwf t1 (List.mem_cons_self _ _) (mem_afterHyphen h)
  have h0 : ¬ (1 < 1 ∧ charAt t1 0 ≠ '-') := by
    intro h; exact absurd h.1 (by decide)
  rw [scanArgs, skipHyphen_eq]
  simp only [if_neg h0, if_true]
  generalize (skipHyphen t1).1 = before
  cases hcp : afterHyphen t1 with
  | nil =>
    simp only []
    constructor
    · intro m1 rest h; cases h
    · intro s m1 h
      cases h
      exact Or.inl ⟨rfl, rfl, _, rfl, rfl⟩
  | cons c cs =>
    rw [hcp] at hnul
    have hc : ¬ c = NUL := fun hc => hnul (by simp [hc])
    have hcs : NUL ∉ cs := fun h => hnul (List.mem_cons_of_mem _ h)
    simp only [if_neg hc]
    cases hsel : selectCommand c with
    | none =>
      simp only []
      constructor
      · intro m1 rest h; cases h
      · intro s m1 h
        cases h
        exact Or.inl ⟨by simp [hsel], rfl, _, rfl, rfl⟩
    | some cmd =>
      simp only []
      have hsm := scanModifiers_spec feat cs.length cs (c :: before)
        { m with ps := NState_SetCommand m.ps cmd } (le_refl _) (by simp) hcs
      cases hscan : scanModifiers feat (c :: before) cs
          { m with ps := NState_SetCommand m.ps cmd } with
      | error e =>
        obtain ⟨s, m2⟩ := e
        constructor
        · intro m1 rest h; cases h
        · intro s1 m1 h
          cases h
          obtain ⟨h1, h2⟩ := hsm.2 _ _ hscan
          exact Or.inr ⟨cmd, by simp [hsel], h1, h2⟩
      | ok m2 =>
        obtain ⟨hcmd, hval⟩ := hsm.1 m2 hscan
        have hcmd2 : m2.ps.command = cmd := hcmd
        have hrec := scanArgs_later feat toks (1 + 1) m2 (by decide) hwf1
        constructor
        · intro m1 rest h
          obtain ⟨h1, h2, h3⟩ := hrec.1 m1 rest h
          refine ⟨c, cmd, rfl, hsel, h1.trans hcmd2, h2, ?_, ?_⟩
          · exact hval
          · rw [← hcmd2]; exact h3
        · intro s m1 h
          obtain ⟨h1, h2⟩ := hrec.2 s m1 h
          exact Or.inr ⟨cmd, by simp [hsel], h1.trans hcmd2, h2⟩

/-! ## `ProcessOptions` in terms of the token loop -/

theorem ProcessOptions_long (feat : Features) (pState : NulibState) (prog t1 t2 : Token)
    (toks : List Token) :
    ProcessOptions feat pState (prog :: t1 :: t2 :: toks) =
      match scanArgs feat 1 (t1 :: t2 :: toks) { ps := pState, warnings := [] } with
      | .error (Stop.fail e, m) =>
        { outcome := Outcome.fail e, ps := m.ps, warnings := m.warnings }
      | .error (Stop.readBeforeToken, m) =>
        { outcome := Outcome.readBeforeToken, ps := m.ps, warnings := m.warnings }
      | .ok (m, rest) => finishOptions m rest := by
  have h2 : ¬ (prog :: t1 :: t2 :: toks).length = 2 := by simp
  have h3 : ¬ (prog :: t1 :: t2 :: toks).length < 3 := by simp
  unfold ProcessOptions
  simp only [h2, false_and, if_false, h3, List.drop_succ_cons, List.drop_zero]

theorem exists_of_length_ge_three {argv : List Token} (h : 3 ≤ argv.length) :
    ∃ prog t1 t2 toks, argv = prog :: t1 :: t2 :: toks := by
  match argv, h with
  | prog :: t1 :: t2 :: toks, _ => exact ⟨prog, t1, t2, toks, rfl⟩

theorem selectCommand_eq_spec (c : Char) : selectCommand c = specCommandOfLetter c := by
  unfold selectCommand specCommandOfLetter
  split
  case h_10 h1 h2 h3 h4 h5 h6 h7 h8 h9 =>
    have e1 : (tolower c == 'a') = false := by simpa using h1
    have e2 : (tolower c == 'x') = false := by simpa using h2
    have e3 : (tolower c == 'p') = false := by simpa using h3
    have e4 : (tolower c == 't') = false := by simpa using h4
    have e5 : (tolower c == 'v') = false := by simpa using h5
    have e6 : (tolower c == 'g') = false := by simpa using h6
    have e7 : (tolower c == 'i') = false := by simpa using h7
    have e8 : (tolower c == 'd') = false := by simpa using h8
    have e9 : (tolower c == 'h') = false := by simpa using h9
    show none = List.lookup (tolower c) commandLetterTable
    simp only [commandLetterTable, List.lookup, e1, e2, e3, e4, e5, e6, e7, e8, e9]
  all_goals
    rename_i heq
    show _ = List.lookup (tolower c) commandLetterTable
    rw [heq]
    rfl

/-! ## Claims about the capability table -/

/-- C2: for each of the nine commands and each letter of the modifier alphabet
and of the command letters, `IsValidModifier` holds exactly when the letter is
listed in the command's row of the spec's table. -/
theorem C2_IsValidModifier_matches_table (cmd : Command) (c : Char)
    (hc : c ∈ modifierAlphabet ++ commandLetters) :
    IsValidModifier cmd c = true ↔ c ∈ specLegalModifiers cmd := by
  revert c
  cases cmd <;> decide

/-- C2 at the letter `z`: legal for Add, as in the table, and not for Delete. -/
theorem C2_IsValidModifier_matches_table_witness :
    'z' ∈ modifierAlphabet ++ commandLetters ∧
    (IsValidModifier kCommandAdd 'z' = true ↔ 'z' ∈ specLegalModifiers kCommandAdd) ∧
    IsValidModifier kCommandAdd 'z' = true ∧ IsValidModifier kCommandDelete 'z' = false :=
  ⟨by decide, C2_IsValidModifier_matches_table kCommandAdd 'z' (by decide), by decide,
    by decide⟩

/-- C3: for each of the nine commands `IsValidOnPipe` and `IsFilespecRequired`
return the values of the spec's table: the pipe is allowed exactly for Extract,
ExtractToPipe, ListShort, ListVerbose, ListDebug and Test, and a file-spec list
is required exactly for Add and Delete. -/
theorem C3_pipe_and_filespec_match_table (cmd : Command) :
    IsValidOnPipe cmd = specPipeAllowed cmd ∧
    IsFilespecRequired cmd = specFilespecRequired cmd ∧
    (IsValidOnPipe cmd = true ↔
      cmd ∈ [kCommandExtract, kCommandExtractToPipe, kCommandListShort,
        kCommandListVerbose, kCommandListDebug, kCommandTest]) ∧
    (IsFilespecRequired cmd = true ↔ cmd ∈ [kCommandAdd, kCommandDelete]) := by
  cases cmd <;> decide

/-! ## Claims about the command token -/

/-- C5: for an argument vector with at least two tokens after the program name
the command is chosen from token 1 alone.  When the first character after the
optional hyphen is missing or selects no command, `ProcessOptions` fails with a
command diagnostic and returns -1 with the state untouched; when it selects a
command by the spec's mapping, that command is the recorded one whatever the
later tokens are, in particular on success. -/
theorem C5_command_from_first_token (feat : Features) (pState : NulibState)
    (argv : List Token) (hwf : WellFormed argv) (hlen : 3 ≤ argv.length) :
    (specCommandOfToken (argv.getD 1 []) = none →
      (∃ e, (ProcessOptions feat pState argv).outcome = Outcome.fail e ∧
        e.isCommandError = true) ∧
      (ProcessOptions feat pState argv).outcome.ret = some (-1) ∧
      (ProcessOptions feat pState argv).ps = pState) ∧
    (∀ cmd, specCommandOfToken (argv.getD 1 []) = some cmd →
      (ProcessOptions feat pState argv).ps.command = cmd) ∧
    ((ProcessOptions feat pState argv).outcome = Outcome.ok →
      specCommandOfToken (argv.getD 1 []) =
        some (ProcessOptions feat pState argv).ps.command) := by
  obtain ⟨prog, t1, t2, toks, rfl⟩ := exists_of_length_ge_three hlen
  have hwf1 : WellFormed (t1 :: t2 :: toks) := fun t ht => hwf t (List.mem_cons_of_mem _ ht)
  have hspec : specCommandOfToken t1 = (afterHyphen t1).head?.bind selectCommand := by
    unfold specCommandOfToken
    congr 1
    funext c
    exact (selectCommand_eq_spec c).symm
  have hfirst := scanArgs_first feat t1 (t2 :: toks) { ps := pState, warnings := [] } hwf1
  have hget : (prog :: t1 :: t2 :: toks).getD 1 [] = t1 := rfl
  rw [hget, ProcessOptions_long, hspec]
  cases hscan : scanArgs feat 1 (t1 :: t2 :: toks) { ps := pState, warnings := [] } with
  | error e =>
    obtain ⟨s, m1⟩ := e
    rcases hfirst.2 s m1 hscan with ⟨hnone, hm, e, he, hce⟩ | ⟨cmd, hsome, hcmd, hme⟩
    · subst he
      subst hm
      rw [hnone]
      refine ⟨fun _ => ⟨⟨e, rfl, hce⟩, rfl, rfl⟩, ?_, ?_⟩
      · intro cmd h; cases h
      · intro h; cases h
    · cases s with
      | readBeforeToken => cases hme
      | fail e =>
        rw [hsome]
        refine ⟨fun h => (by cases h), ?_, ?_⟩
        · intro cmd1 h
          cases h
          exact hcmd
        · intro h; cases h
  | ok r =>
    obtain ⟨m1, rest⟩ := r
    obtain ⟨c, cmd, hhead, hsel, hcmd, -, -, -⟩ := hfirst.1 m1 rest hscan
    have hfin : (finishOptions m1 rest).ps.command = cmd := by
      rw [← hcmd]
      unfold finishOptions
      split
      · rfl
      · split
        · rfl
        · simp only []
          split
          · rfl
          · split
            · rfl
            · split <;> rfl
    have hb : (some c : Option Char).bind selectCommand = some cmd := hsel
    rw [hhead, hb]
    refine ⟨fun h => (by cases h), ?_, ?_⟩
    · intro cmd1 h
      cases h
      exact hfin
    · intro _
      rw [hfin]

/-- C5 at `-X archive.shk`, which selects Extract, and at `q archive.shk`, which
selects nothing and returns -1. -/
theorem C5_command_from_first_token_witness :
    WellFormed (argvOf ["nulib2", "-X", "archive.shk"]) ∧
    3 ≤ (argvOf ["nulib2", "-X", "archive.shk"]).length ∧
    specCommandOfToken ((argvOf ["nulib2", "-X", "archive.shk"]).getD 1 []) =
      some kCommandExtract ∧
    (ProcessOptions allFeatures clearState
      (argvOf ["nulib2", "-X", "archive.shk"])).outcome = Outcome.ok ∧
    (ProcessOptions allFeatures clearState
      (argvOf ["nulib2", "-X", "archive.shk"])).ps.command = kCommandExtract ∧
    specCommandOfToken ((argvOf ["nulib2", "q", "archive.shk"]).getD 1 []) = none ∧
    (ProcessOptions allFeatures clearState
      (argvOf ["nulib2", "q", "archive.shk"])).outcome.ret = some (-1) :=
  ⟨by decide, by decide, by decide, by decide,
    (C5_command_from_first_token allFeatures clearState
      (argvOf ["nulib2", "-X", "archive.shk"]) (by decide) (by decide)).2.1
      kCommandExtract (by decide),
    by decide,
    ((C5_command_from_first_token allFeatures clearState
      (argvOf ["nulib2", "q", "archive.shk"]) (by decide) (by decide)).1 (by decide)).2.1⟩

/-! ## What a successful parse implies -/

theorem length_of_ok {feat : Features} {pState : NulibState} {argv : List Token}
    (hok : (ProcessOptions feat pState argv).outcome = Outcome.ok) : 3 ≤ argv.length := by
  by_contra hlen
  have hlt : argv.length < 3 := by omega
  have hne : (ProcessOptions feat pState argv).outcome ≠ Outcome.ok := by
    unfold ProcessOptions
    simp only [if_pos hlt]
    split_ifs <;> (intro h; cases h)
  exact hne hok

theorem finishOptions_ok {m : Mach} {rest : List Token}
    (hok : (finishOptions m rest).outcome = Outcome.ok) :
    ¬ (m.ps.modNoCompression = true ∧ m.ps.modCompressDeflate = true) ∧
    ∃ arch files, rest = arch :: files ∧
      (IsFilenameStdin arch = true → IsValidOnPipe m.ps.command = true) ∧
      (files = [] → IsFilespecRequired m.ps.command = false) ∧
      (finishOptions m rest).ps =
        NState_SetFilespecCount
          (NState_SetFilespecPointer (NState_SetArchiveFilename m.ps arch)
            (if files = [] then none else some files))
          (files.length : Int) := by
  unfold finishOptions at hok ⊢
  split at hok
  · cases hok
  · rename_i hconf
    refine ⟨hconf, ?_⟩
    rw [if_neg hconf]
    cases rest with
    | nil => cases hok
    | cons arch files =>
      simp only [] at hok ⊢
      split at hok
      · cases hok
      · rename_i hpipe
        rw [if_neg hpipe]
        have hp : IsFilenameStdin arch = true → IsValidOnPipe m.ps.command = true := by
          intro h1
          by_contra h2
          exact hpipe ⟨h1, by simpa using h2⟩
        cases files with
        | cons f fs => exact ⟨arch, f :: fs, rfl, hp, fun h => (by cases h), rfl⟩
        | nil =>
          simp only [] at hok ⊢
          split at hok
          · cases hok
          · rename_i hreq
            rw [if_neg hreq]
            exact ⟨arch, [], rfl, hp, fun _ => by simpa using hreq, rfl⟩

theorem ProcessOptions_ok_inv {feat : Features} {pState : NulibState} {argv : List Token}
    (hwf : WellFormed argv)
    (hok : (ProcessOptions feat pState argv).outcome = Outcome.ok) :
    ∃ prog t1 toks m arch files c,
      argv = prog :: t1 :: toks ∧
      scanArgs feat 1 (t1 :: toks) { ps := pState, warnings := [] } = .ok (m, arch :: files) ∧
      ProcessOptions feat pState argv = finishOptions m (arch :: files) ∧
      (afterHyphen t1).head? = some c ∧ selectCommand c = some m.ps.command ∧
      arch :: files = toks.dropWhile isBundle ∧
      (∀ x ∈ (afterHyphen t1).tail,
        IsValidModifier m.ps.command (tolower x) = true ∧ tolower x ≠ NUL) ∧
      (∀ t ∈ toks.takeWhile isBundle, ∀ x ∈ t.tail,
        IsValidModifier m.ps.command (tolower x) = true ∧ tolower x ≠ NUL) := by
  obtain ⟨prog, t1, t2, toks, rfl⟩ := exists_of_length_ge_three (length_of_ok hok)
  have hwf1 : WellFormed (t1 :: t2 :: toks) := fun t ht => hwf t (List.mem_cons_of_mem _ ht)
  have hfirst := scanArgs_first feat t1 (t2 :: toks) { ps := pState, warnings := [] } hwf1
  rw [ProcessOptions_long] at hok ⊢
  cases hscan : scanArgs feat 1 (t1 :: t2 :: toks) { ps := pState, warnings := [] } with
  | error e =>
    obtain ⟨s, m1⟩ := e
    rw [hscan] at hok
    cases s <;> cases hok
  | ok r =>
    obtain ⟨m1, rest⟩ := r
    rw [hscan] at hok
    simp only [] at hok ⊢
    obtain ⟨-, arch, files, hrest, -, -, -⟩ := finishOptions_ok hok
    subst hrest
    obtain ⟨c, cmd, hhead, hsel, hcmd, hdrop, hv1, hv2⟩ := hfirst.1 m1 _ hscan
    subst hcmd
    exact ⟨prog, t1, t2 :: toks, m1, arch, files, c, rfl, hscan, rfl, hhead, hsel, hdrop,
      hv1, hv2⟩

theorem mem_modifiers_of_valid {cmd : Command} {c : Char}
    (hv : IsValidModifier cmd c = true) (hc : c ≠ NUL) :
    ∃ row, FindValidComboEntry cmd = some row ∧ c ∈ row.modifiers := by
  unfold IsValidModifier at hv
  cases hrow : FindValidComboEntry cmd with
  | none => rw [hrow] at hv; cases hv
  | some row =>
    rw [hrow] at hv
    refine ⟨row, rfl, ?_⟩
    by_contra hmem
    have : strchr row.modifiers c = false := by simp [strchr, hmem, hc]
    simp [this] at hv

theorem FindValidComboEntry_some {cmd : Command} {row : ValidCombo}
    (h : FindValidComboEntry cmd = some row) : row ∈ gValidCombos ∧ row.cmd = cmd := by
  unfold FindValidComboEntry at h
  exact ⟨List.mem_of_find?_eq_some h, by simpa using List.find?_some h⟩

theorem exists_row (cmd : Command) : ∃ row, FindValidComboEntry cmd = some row := by
  cases cmd <;> exact ⟨_, rfl⟩

theorem command_of_finish {m : Mach} {rest : List Token}
    (hok : (finishOptions m rest).outcome = Outcome.ok) :
    (finishOptions m rest).ps.command = m.ps.command := by
  obtain ⟨-, arch, files, -, -, -, hps⟩ := finishOptions_ok hok
  rw [hps]
  rfl

/-! ## Claims about a successful parse -/

/-- C1: when `ProcessOptions` returns 0, every modifier character that was
scanned (each character after the command letter of token 1, and each
character after the leading hyphen of every later modifier bundle),
lowercased, occurs in the modifier string of the `gValidCombos` row of the
selected command. -/
theorem C1_accepted_modifiers_are_legal (feat : Features) (pState : NulibState)
    (argv : List Token) (hwf : WellFormed argv)
    (hok : (ProcessOptions feat pState argv).outcome = Outcome.ok) :
    ∃ row, row ∈ gValidCombos ∧ row.cmd = (ProcessOptions feat pState argv).ps.command ∧
      FindValidComboEntry (ProcessOptions feat pState argv).ps.command = some row ∧
      (∀ x ∈ (afterHyphen (argv.getD 1 [])).tail, tolower x ∈ row.modifiers) ∧
      (∀ t ∈ (argv.drop 2).takeWhile isBundle, ∀ x ∈ t.tail,
        tolower x ∈ row.modifiers) := by
  obtain ⟨prog, t1, toks, m, arch, files, c, hargv, hscan, hfin, -, -, -, hv1, hv2⟩ :=
    ProcessOptions_ok_inv hwf hok
  have hcmd : (ProcessOptions feat pState argv).ps.command = m.ps.command := by
    rw [hfin] at hok ⊢
    exact command_of_finish hok
  rw [hcmd]
  subst hargv
  obtain ⟨row, hrow⟩ := exists_row m.ps.command
  obtain ⟨hmem, hrc⟩ := FindValidComboEntry_some hrow
  have key : ∀ x, IsValidModifier m.ps.command (tolower x) = true ∧ tolower x ≠ NUL →
      tolower x ∈ row.modifiers := by
    intro x hx
    obtain ⟨row1, h1, h2⟩ := mem_modifiers_of_valid hx.1 hx.2
    rw [hrow] at h1
    cases h1
    exact h2
  refine ⟨row, hmem, hrc, hrow, ?_, ?_⟩
  · intro x hx
    exact key x (hv1 x hx)
  · intro t ht x hx
    exact key x (hv2 t ht x hx)

/-- C1 at `-xSj -bL archive.shk`: the parse succeeds and every scanned letter is
in the Extract row. -/
theorem C1_accepted_modifiers_are_legal_witness :
    WellFormed (argvOf ["nulib2", "-xSj", "-bL", "archive.shk"]) ∧
    (ProcessOptions allFeatures clearState
      (argvOf ["nulib2", "-xSj", "-bL", "archive.shk"])).outcome = Outcome.ok ∧
    ∃ row, row ∈ gValidCombos ∧
      row.cmd = (ProcessOptions allFeatures clearState
        (argvOf ["nulib2", "-xSj", "-bL", "archive.shk"])).ps.command ∧
      FindValidComboEntry (ProcessOptions allFeatures clearState
        (argvOf ["nulib2", "-xSj", "-bL", "archive.shk"])).ps.command = some row ∧
      (∀ x ∈ (afterHyphen ((argvOf ["nulib2", "-xSj", "-bL", "archive.shk"]).getD 1 [])).tail,
        tolower x ∈ row.modifiers) ∧
      (∀ t ∈ ((argvOf ["nulib2", "-xSj", "-bL", "archive.shk"]).drop 2).takeWhile isBundle,
        ∀ x ∈ t.tail, tolower x ∈ row.modifiers) :=
  ⟨by decide, by decide,
    C1_accepted_modifiers_are_legal allFeatures clearState
      (argvOf ["nulib2", "-xSj", "-bL", "archive.shk"]) (by decide) (by decide)⟩

/-- C4: when `ProcessOptions` returns 0, the recorded archive path is the first
token at position 2 or later that does not begin with a hyphen or is exactly
`-`, and the recorded file-spec list is the sequence of all tokens after it, in
order, with count 0 and the nil pointer when none remain.  In particular
`a archive.shk f1 f2` yields the Add command, the archive path `archive.shk`,
the file-spec list `f1 f2`, and no modifier flag. -/
theorem C4_archive_path_and_filespecs :
    (∀ (feat : Features) (pState : NulibState) (argv : List Token), WellFormed argv →
      (ProcessOptions feat pState argv).outcome = Outcome.ok →
      ∃ pre arch files, argv.drop 2 = pre ++ arch :: files ∧
        (∀ t ∈ pre, endsModifiers t = false) ∧ endsModifiers arch = true ∧
        (ProcessOptions feat pState argv).ps.archiveFilename = some arch ∧
        (ProcessOptions feat pState argv).ps.filespecs = files ∧
        (ProcessOptions feat pState argv).ps.filespecCount = (files.length : Int) ∧
        (files = [] → (ProcessOptions feat pState argv).ps.filespecPointer = none)) ∧
    (∀ feat : Features,
      ProcessOptions feat clearState (argvOf ["nulib2", "a", "archive.shk", "f1", "f2"]) =
        { outcome := Outcome.ok,
          ps := { clearState with
            command := kCommandAdd,
            archiveFilename := some "archive.shk".toList,
            filespecPointer := some (argvOf ["f1", "f2"]),
            filespecCount := 2 },
          warnings := [] }) := by
  constructor
  · intro feat pState argv hwf hok
    obtain ⟨prog, t1, toks, m, arch, files, c, hargv, hscan, hfin, -, -, hdrop, -, -⟩ :=
      ProcessOptions_ok_inv hwf hok
    subst hargv
    rw [hfin] at hok ⊢
    obtain ⟨-, arch1, files1, hrest, -, -, hps⟩ := finishOptions_ok hok
    cases hrest
    rw [hps]
    refine ⟨toks.takeWhile isBundle, arch, files, ?_, ?_, ?_, rfl, ?_, rfl, ?_⟩
    · rw [hdrop]
      exact (List.takeWhile_append_dropWhile isBundle toks).symm
    · intro t ht
      have := List.mem_takeWhile_imp ht
      simpa [isBundle] using this
    · have hne : toks.dropWhile isBundle ≠ [] := by rw [← hdrop]; simp
      have h1 := List.head_dropWhile_not isBundle toks hne
      have h2 : (toks.dropWhile isBundle).head hne = arch := by
        simp only [← hdrop, List.head_cons]
      rw [h2] at h1
      simpa [isBundle] using h1
    · cases files with
      | nil => rfl
      | cons f fs =>
        simp [NulibState.filespecs, NState_SetFilespecCount, NState_SetFilespecPointer]
    · intro h
      subst h
      rfl
  · intro feat
    rfl

/-- C4 at `a archive.shk f1 f2`: the Add command, the archive path `archive.shk`,
the file-spec list `f1 f2`, no modifier flag. -/
theorem C4_archive_path_and_filespecs_witness :
    WellFormed (argvOf ["nulib2", "a", "archive.shk", "f1", "f2"]) ∧
    (ProcessOptions allFeatures clearState
      (argvOf ["nulib2", "a", "archive.shk", "f1", "f2"])).outcome = Outcome.ok ∧
    (ProcessOptions allFeatures clearState
      (argvOf ["nulib2", "a", "archive.shk", "f1", "f2"])).ps.command = kCommandAdd ∧
    (ProcessOptions allFeatures clearState
      (argvOf ["nulib2", "a", "archive.shk", "f1", "f2"])).ps.modsClear ∧
    (ProcessOptions allFeatures clearState
      (argvOf ["nulib2", "a", "archive.shk", "f1", "f2"])).ps.archiveFilename =
        some "archive.shk".toList ∧
    (ProcessOptions allFeatures clearState
      (argvOf ["nulib2", "a", "archive.shk", "f1", "f2"])).ps.filespecs =
        argvOf ["f1", "f2"] ∧
    ∃ pre arch files,
      (argvOf ["nulib2", "a", "archive.shk", "f1", "f2"]).drop 2 = pre ++ arch :: files ∧
      (∀ t ∈ pre, endsModifiers t = false) ∧ endsModifiers arch = true ∧
      (ProcessOptions allFeatures clearState
        (argvOf ["nulib2", "a", "archive.shk", "f1", "f2"])).ps.archiveFilename = some arch ∧
      (ProcessOptions allFeatures clearState
        (argvOf ["nulib2", "a", "archive.shk", "f1", "f2"])).ps.filespecs = files ∧
      (ProcessOptions allFeatures clearState
        (argvOf ["nulib2", "a", "archive.shk", "f1", "f2"])).ps.filespecCount =
          (files.length : Int) ∧
      (files = [] → (ProcessOptions allFeatures clearState
        (argvOf ["nulib2", "a", "archive.shk", "f1", "f2"])).ps.filespecPointer = none) :=
  ⟨by decide, by decide, by decide, by decide, by decide, by decide,
    C4_archive_path_and_filespecs.1 allFeatures clearState
      (argvOf ["nulib2", "a", "archive.shk", "f1", "f2"]) (by decide) (by decide)⟩

/-! ## Claims about the modifier letters -/

/-- C6 as stated fails: parsing `-aee archive.shk f1` from a clear state
succeeds with `preserveTypeExtended` set, but `preserveType` is set as well. -/
theorem C6_aee_sets_preserveType_too :
    (ProcessOptions allFeatures clearState
      (argvOf ["nulib2", "-aee", "archive.shk", "f1"])).outcome = Outcome.ok ∧
    (ProcessOptions allFeatures clearState
      (argvOf ["nulib2", "-aee", "archive.shk", "f1"])).ps.modPreserveTypeExtended = true ∧
    (ProcessOptions allFeatures clearState
      (argvOf ["nulib2", "-aee", "archive.shk", "f1"])).ps.modPreserveType = true ∧
    ¬ ((ProcessOptions allFeatures clearState
        (argvOf ["nulib2", "-aee", "archive.shk", "f1"])).ps.modPreserveTypeExtended = true ∧
      (ProcessOptions allFeatures clearState
        (argvOf ["nulib2", "-aee", "archive.shk", "f1"])).ps.modPreserveType = false) := by
  decide

/-- C6, amended: parsing `-aee archive.shk f1` from a clear state succeeds with
both `preserveTypeExtended` and `preserveType` set and no other modifier flag;
in general, for a command for which `e` is legal, two consecutive `e`
characters that follow a character other than `e` set `preserveType` (the
first) and `preserveTypeExtended` (the second), and change nothing else. -/
theorem C6_ee_sets_both_flags :
    (∀ feat : Features,
      ProcessOptions feat clearState (argvOf ["nulib2", "-aee", "archive.shk", "f1"]) =
        { outcome := Outcome.ok,
          ps := { clearState with
            command := kCommandAdd,
            modPreserveType := true,
            modPreserveTypeExtended := true,
            archiveFilename := some "archive.shk".toList,
            filespecPointer := some ["f1".toList],
            filespecCount := 1 },
          warnings := [] }) ∧
    (∀ (feat : Features) (p : Char) (before : List Char) (m : Mach),
      p ≠ 'e' → IsValidModifier m.ps.command 'e' = true →
      scanModifiers feat (p :: before) ['e', 'e'] m =
        .ok { ps := NState_SetModPreserveTypeExtended (NState_SetModPreserveType m.ps true) true,
              warnings := m.warnings }) := by
  constructor
  · intro feat
    rfl
  · intro feat p before m hp hv
    have h1 : applyModifier feat (p :: before) 'e' 'e' m =
        .ok (m.set NState_SetModPreserveType, false) := by
      simp [applyModifier, tolower, hp]
    have h2 : applyModifier feat ('e' :: p :: before) 'e' NUL
        (m.set NState_SetModPreserveType) =
        .ok ((m.set NState_SetModPreserveType).set NState_SetModPreserveTypeExtended,
          false) := by
      simp [applyModifier, tolower]
    have hv1 : ¬ IsValidModifier (m.set NState_SetModPreserveType).ps.command (tolower 'e')
        = false := by
      show ¬ IsValidModifier m.ps.command 'e' = false
      simp [hv]
    have hv2 : ¬ IsValidModifier
        ((m.set NState_SetModPreserveType).set NState_SetModPreserveTypeExtended).ps.command
        (tolower 'e') = false := by
      show ¬ IsValidModifier m.ps.command 'e' = false
      simp [hv]
    have hne : ¬ ('e' = NUL) := by decide
    rw [scanModifiers, if_neg hne, h1]
    simp only []
    rw [if_neg hv1, scanModifiers, if_neg hne, h2]
    simp only []
    rw [if_neg hv2]
    rfl

/-- C6 at the bundle `-ee` after the Extract command. -/
theorem C6_ee_sets_both_flags_witness :
    '-' ≠ 'e' ∧
    IsValidModifier
      ({ ps := NState_SetCommand clearState kCommandExtract, warnings := [] } : Mach).ps.command
      'e' = true ∧
    scanModifiers allFeatures ['-'] ['e', 'e']
        { ps := NState_SetCommand clearState kCommandExtract, warnings := [] } =
      .ok { ps := NState_SetModPreserveTypeExtended
              (NState_SetModPreserveType (NState_SetCommand clearState kCommandExtract) true)
              true,
            warnings := [] } :=
  ⟨by decide, by decide,
    C6_ee_sets_both_flags.2 allFeatures '-' []
      { ps := NState_SetCommand clearState kCommandExtract, warnings := [] }
      (by decide) (by decide)⟩

/-! ## Claims about the `-0`/`-z` conflict -/

/-- C7 as stated fails: parsing `-0 -z archive.shk f1` fails, but with the
unknown-command diagnostic for `0`, not with the `-0`/`-z` conflict. -/
theorem C7_zero_is_not_a_command :
    (ProcessOptions allFeatures clearState
      (argvOf ["nulib2", "-0", "-z", "archive.shk", "f1"])).outcome =
        Outcome.fail (ParseError.unknownCommand '0') ∧
    (ProcessOptions allFeatures clearState
      (argvOf ["nulib2", "-0", "-z", "archive.shk", "f1"])).outcome ≠
        Outcome.fail ParseError.conflict := by
  decide

/-- C7, amended: parsing `-0 -z archive.shk f1` fails with the unknown-command
diagnostic for `0`, leaving the state untouched, because token 1 must carry the
command letter; with a command for which both letters are legal and the
deflate feature available, `-a -0 -z archive.shk f1` fails with the conflict
diagnostic "Can't specify both -0 and -z". -/
theorem C7_conflict_needs_a_command :
    (∀ (feat : Features) (pState : NulibState),
      ProcessOptions feat pState (argvOf ["nulib2", "-0", "-z", "archive.shk", "f1"]) =
        { outcome := Outcome.fail (ParseError.unknownCommand '0'), ps := pState,
          warnings := [] }) ∧
    (∀ feat : Features, feat.deflate = true →
      (ProcessOptions feat clearState
        (argvOf ["nulib2", "-a", "-0", "-z", "archive.shk", "f1"])).outcome =
          Outcome.fail ParseError.conflict) := by
  constructor
  · intro feat pState
    rfl
  · intro feat hd
    obtain ⟨d, b⟩ := feat
    simp only at hd
    subst hd
    cases b <;> rfl

/-- C7 at `-a -0 -z archive.shk f1` with both compression features present. -/
theorem C7_conflict_needs_a_command_witness :
    allFeatures.deflate = true ∧
    (ProcessOptions allFeatures clearState
      (argvOf ["nulib2", "-a", "-0", "-z", "archive.shk", "f1"])).outcome =
        Outcome.fail ParseError.conflict :=
  ⟨rfl, C7_conflict_needs_a_command.2 allFeatures rfl⟩

/-- C8: whenever `ProcessOptions` returns 0, `noCompression` and
`compressDeflate` are not both set in the result (from a state with all flags
clear, and from any other state); conversely, whenever the token loop finishes
without a diagnostic and leaves both flags set, `ProcessOptions` fails with the
conflict diagnostic and returns -1, as for `-a0z archive.shk f1` and
`-a -0 -z archive.shk f1` when the deflate feature is available. -/
theorem C8_no_compression_excludes_deflate :
    (∀ (feat : Features) (pState : NulibState) (argv : List Token),
      (ProcessOptions feat pState argv).outcome = Outcome.ok →
      ¬ ((ProcessOptions feat pState argv).ps.modNoCompression = true ∧
         (ProcessOptions feat pState argv).ps.modCompressDeflate = true)) ∧
    (∀ (feat : Features) (pState : NulibState) (argv : List Token) (m : Mach)
        (rest : List Token), 3 ≤ argv.length →
      scanArgs feat 1 (argv.drop 1) { ps := pState, warnings := [] } = .ok (m, rest) →
      m.ps.modNoCompression = true → m.ps.modCompressDeflate = true →
      (ProcessOptions feat pState argv).outcome = Outcome.fail ParseError.conflict ∧
      (ProcessOptions feat pState argv).outcome.ret = some (-1)) ∧
    (∀ feat : Features, feat.deflate = true →
      (ProcessOptions feat clearState
        (argvOf ["nulib2", "-a0z", "archive.shk", "f1"])).outcome =
          Outcome.fail ParseError.conflict ∧
      (ProcessOptions feat clearState
        (argvOf ["nulib2", "-a", "-0", "-z", "archive.shk", "f1"])).outcome =
          Outcome.fail ParseError.conflict) := by
  refine ⟨?_, ?_, ?_⟩
  · intro feat pState argv hok
    obtain ⟨prog, t1, t2, toks, rfl⟩ := exists_of_length_ge_three (length_of_ok hok)
    rw [ProcessOptions_long] at hok ⊢
    cases hscan : scanArgs feat 1 (t1 :: t2 :: toks) { ps := pState, warnings := [] } with
    | error e =>
      obtain ⟨s, m1⟩ := e
      rw [hscan] at hok
      cases s <;> cases hok
    | ok r =>
      obtain ⟨m1, rest⟩ := r
      rw [hscan] at hok
      simp only [] at hok ⊢
      obtain ⟨hconf, arch, files, -, -, -, hps⟩ := finishOptions_ok hok
      rw [hps]
      exact hconf
  · intro feat pState argv m rest hlen hscan h0 hz
    obtain ⟨prog, t1, t2, toks, rfl⟩ := exists_of_length_ge_three hlen
    have hscan1 : scanArgs feat 1 (t1 :: t2 :: toks) { ps := pState, warnings := [] } =
        .ok (m, rest) := hscan
    rw [ProcessOptions_long, hscan1]
    show (finishOptions m rest).outcome = _ ∧ (finishOptions m rest).outcome.ret = _
    unfold finishOptions
    rw [if_pos (And.intro h0 hz)]
    exact ⟨rfl, rfl⟩
  · intro feat hd
    obtain ⟨d, b⟩ := feat
    simp only at hd
    subst hd
    cases b <;> exact ⟨rfl, rfl⟩

/-- C8 at `-a0z archive.shk f1`, which ends in the conflict diagnostic, and at
`-a0 archive.shk f1`, which succeeds with `noCompression` alone. -/
theorem C8_no_compression_excludes_deflate_witness :
    3 ≤ (argvOf ["nulib2", "-a0z", "archive.shk", "f1"]).length ∧
    scanArgs allFeatures 1 ((argvOf ["nulib2", "-a0z", "archive.shk", "f1"]).drop 1)
        { ps := clearState, warnings := [] } =
      .ok ({ ps := NState_SetModCompressDeflate
                (NState_SetModNoCompression (NState_SetCommand clearState kCommandAdd) true)
                true,
             warnings := [] }, argvOf ["archive.shk", "f1"]) ∧
    (ProcessOptions allFeatures clearState
      (argvOf ["nulib2", "-a0z", "archive.shk", "f1"])).outcome =
        Outcome.fail ParseError.conflict ∧
    (ProcessOptions allFeatures clearState
      (argvOf ["nulib2", "-a0z", "archive.shk", "f1"])).outcome.ret = some (-1) ∧
    (ProcessOptions allFeatures clearState
        (argvOf ["nulib2", "-a0", "archive.shk", "f1"])).outcome = Outcome.ok ∧
    ¬ ((ProcessOptions allFeatures clearState
          (argvOf ["nulib2", "-a0", "archive.shk", "f1"])).ps.modNoCompression = true ∧
       (ProcessOptions allFeatures clearState
          (argvOf ["nulib2", "-a0", "archive.shk", "f1"])).ps.modCompressDeflate = true) :=
  ⟨by decide, rfl,
    (C8_no_compression_excludes_deflate.2.1 allFeatures clearState
      (argvOf ["nulib2", "-a0z", "archive.shk", "f1"])
      { ps := NState_SetModCompressDeflate
          (NState_SetModNoCompression (NState_SetCommand clearState kCommandAdd) true) true,
        warnings := [] }
      (argvOf ["archive.shk", "f1"]) (by decide) rfl rfl rfl).1,
    (C8_no_compression_excludes_deflate.2.1 allFeatures clearState
      (argvOf ["nulib2", "-a0z", "archive.shk", "f1"])
      { ps := NState_SetModCompressDeflate
          (NState_SetModNoCompression (NState_SetCommand clearState kCommandAdd) true) true,
        warnings := [] }
      (argvOf ["archive.shk", "f1"]) (by decide) rfl rfl rfl).2,
    by decide,
    C8_no_compression_excludes_deflate.1 allFeatures clearState
      (argvOf ["nulib2", "-a0", "archive.shk", "f1"]) (by decide)⟩

/-! ## What happens once a command is selected -/

theorem ProcessOptions_selected (feat : Features) (pState : NulibState) {argv : List Token}
    (hwf : WellFormed argv) (hlen : 3 ≤ argv.length) {cmd : Command}
    (hsel : specCommandOfToken (argv.getD 1 []) = some cmd) :
    (∃ e, (ProcessOptions feat pState argv).outcome = Outcome.fail e ∧
      e.isModifierError = true) ∨
    (∃ m, m.ps.command = cmd ∧
      ProcessOptions feat pState argv =
        finishOptions m ((argv.drop 2).dropWhile isBundle)) := by
  obtain ⟨prog, t1, t2, toks, rfl⟩ := exists_of_length_ge_three hlen
  have hwf1 : WellFormed (t1 :: t2 :: toks) := fun t ht => hwf t (List.mem_cons_of_mem _ ht)
  have hspec : specCommandOfToken t1 = (afterHyphen t1).head?.bind selectCommand := by
    unfold specCommandOfToken
    congr 1
    funext c
    exact (selectCommand_eq_spec c).symm
  have hsel1 : (afterHyphen t1).head?.bind selectCommand = some cmd := by
    rw [← hspec]; exact hsel
  have hfirst := scanArgs_first feat t1 (t2 :: toks) { ps := pState, warnings := [] } hwf1
  rw [ProcessOptions_long]
  cases hscan : scanArgs feat 1 (t1 :: t2 :: toks) { ps := pState, warnings := [] } with
  | error e =>
    obtain ⟨s, m1⟩ := e
    rcases hfirst.2 s m1 hscan with ⟨hnone, -, -⟩ | ⟨cmd1, -, -, hme⟩
    · rw [hnone] at hsel1
      cases hsel1
    · cases s with
      | readBeforeToken => cases hme
      | fail e => exact Or.inl ⟨e, rfl, hme⟩
  | ok r =>
    obtain ⟨m1, rest⟩ := r
    obtain ⟨c, cmd1, hhead, hsc, hcmd, hdrop, -, -⟩ := hfirst.1 m1 rest hscan
    have hb : (some c : Option Char).bind selectCommand = some cmd1 := hsc
    rw [hhead, hb] at hsel1
    cases hsel1
    refine Or.inr ⟨m1, hcmd, ?_⟩
    rw [hdrop]
    rfl

/-! ## Claims about the stdin sentinel and the file specification -/

/-- C9: when the archive-path token is the stdin sentinel `-`,
`ProcessOptions` returns 0 only if the selected command is valid on a pipe,
and when the selected command is not valid on a pipe and neither a modifier
diagnostic nor the conflict diagnostic occurred, it fails with the pipe
diagnostic and returns -1.  `-p -` succeeds with the ExtractToPipe command and
the archive path `-`; `-a -` fails with the pipe diagnostic, not with the
file-list one. -/
theorem C9_stdin_needs_pipe_command :
    (∀ (feat : Features) (pState : NulibState) (argv : List Token) (files : List Token),
      WellFormed argv → (argv.drop 2).dropWhile isBundle = ['-'] :: files →
      ((ProcessOptions feat pState argv).outcome = Outcome.ok →
        IsValidOnPipe (ProcessOptions feat pState argv).ps.command = true) ∧
      (∀ cmd, specCommandOfToken (argv.getD 1 []) = some cmd → IsValidOnPipe cmd = false →
        (∀ e, (ProcessOptions feat pState argv).outcome = Outcome.fail e →
          e.isModifierError = false) →
        (ProcessOptions feat pState argv).outcome ≠ Outcome.fail ParseError.conflict →
        (ProcessOptions feat pState argv).outcome = Outcome.fail ParseError.noPipe ∧
        (ProcessOptions feat pState argv).outcome.ret = some (-1))) ∧
    (∀ feat : Features,
      (ProcessOptions feat clearState (argvOf ["nulib2", "-p", "-"])).outcome = Outcome.ok ∧
      (ProcessOptions feat clearState (argvOf ["nulib2", "-p", "-"])).ps.command =
        kCommandExtractToPipe ∧
      (ProcessOptions feat clearState (argvOf ["nulib2", "-p", "-"])).ps.archiveFilename =
        some ['-'] ∧
      (ProcessOptions feat clearState (argvOf ["nulib2", "-a", "-"])).outcome =
        Outcome.fail ParseError.noPipe ∧
      (ProcessOptions feat clearState (argvOf ["nulib2", "-a", "-"])).outcome ≠
        Outcome.fail ParseError.needFiles) := by
  constructor
  · intro feat pState argv files hwf harch
    have hlen : 3 ≤ argv.length := by
      by_contra h
      have : argv.drop 2 = [] := List.drop_eq_nil_of_le (by omega)
      rw [this] at harch
      cases harch
    constructor
    · intro hok
      obtain ⟨prog, t1, toks, m, arch, fs, c, hargv, -, hfin, -, -, hdrop, -, -⟩ :=
        ProcessOptions_ok_inv hwf hok
      subst hargv
      have h2 : arch :: fs = ['-'] :: files := by rw [hdrop]; exact harch
      cases h2
      rw [hfin] at hok ⊢
      obtain ⟨-, arch1, files1, hrest, hpipe, -, hps⟩ := finishOptions_ok hok
      cases hrest
      rw [hps]
      exact hpipe (by decide)
    · intro cmd hsel hnp hmod hconf
      rcases ProcessOptions_selected feat pState hwf hlen hsel with ⟨e, he, hme⟩ | ⟨m, hcmd, hfin⟩
      · rw [hmod e he] at hme
        cases hme
      · rw [hfin, harch] at hconf ⊢
        unfold finishOptions at hconf ⊢
        by_cases hc : m.ps.modNoCompression = true ∧ m.ps.modCompressDeflate = true
        · rw [if_pos hc] at hconf
          exact absurd rfl hconf
        · have hp : IsFilenameStdin ['-'] = true ∧
              IsValidOnPipe (NState_SetArchiveFilename m.ps ['-']).command = false :=
            ⟨by decide, by rw [← hcmd] at hnp; exact hnp⟩
          rw [if_neg hc]
          simp only []
          rw [if_pos hp]
          exact ⟨rfl, rfl⟩
  · intro feat
    obtain ⟨d, b⟩ := feat
    cases d <;> cases b <;> decide

/-- C9 at `-p -`, which succeeds, and at `-a -`, which ends in the pipe
diagnostic. -/
theorem C9_stdin_needs_pipe_command_witness :
    WellFormed (argvOf ["nulib2", "-p", "-"]) ∧
    ((argvOf ["nulib2", "-p", "-"]).drop 2).dropWhile isBundle = ['-'] :: [] ∧
    (ProcessOptions allFeatures clearState (argvOf ["nulib2", "-p", "-"])).outcome
      = Outcome.ok ∧
    IsValidOnPipe
      (ProcessOptions allFeatures clearState (argvOf ["nulib2", "-p", "-"])).ps.command
      = true ∧
    WellFormed (argvOf ["nulib2", "-a", "-"]) ∧
    ((argvOf ["nulib2", "-a", "-"]).drop 2).dropWhile isBundle = ['-'] :: [] ∧
    specCommandOfToken ((argvOf ["nulib2", "-a", "-"]).getD 1 []) = some kCommandAdd ∧
    IsValidOnPipe kCommandAdd = false ∧
    (ProcessOptions allFeatures clearState (argvOf ["nulib2", "-a", "-"])).outcome =
      Outcome.fail ParseError.noPipe :=
  ⟨by decide, by decide, by decide,
    (C9_stdin_needs_pipe_command.1 allFeatures clearState (argvOf ["nulib2", "-p", "-"]) []
      (by decide) (by decide)).1 (by decide),
    by decide, by decide, by decide, by decide,
    ((C9_stdin_needs_pipe_command.1 allFeatures clearState (argvOf ["nulib2", "-a", "-"]) []
      (by decide) (by decide)).2 kCommandAdd (by decide) (by decide)
      (fun e he => by
        have h : (ProcessOptions allFeatures clearState
            (argvOf ["nulib2", "-a", "-"])).outcome = Outcome.fail ParseError.noPipe := by
          decide
        rw [h] at he
        cases he
        rfl)
      (by decide)).1⟩

/-- C10 as stated fails: in `-a -` no token follows the archive path and the
Add command requires a file list, yet `ProcessOptions` fails with the pipe
diagnostic, not with the file-list one; likewise `-a0z archive.shk`, with the
deflate feature available, fails with the conflict diagnostic. -/
theorem C10_pipe_check_comes_first :
    ((argvOf ["nulib2", "-a", "-"]).drop 2).dropWhile isBundle = [['-']] ∧
    specCommandOfToken ((argvOf ["nulib2", "-a", "-"]).getD 1 []) = some kCommandAdd ∧
    IsFilespecRequired kCommandAdd = true ∧
    (ProcessOptions allFeatures clearState (argvOf ["nulib2", "-a", "-"])).outcome =
      Outcome.fail ParseError.noPipe ∧
    (ProcessOptions allFeatures clearState (argvOf ["nulib2", "-a", "-"])).outcome ≠
      Outcome.fail ParseError.needFiles ∧
    ((argvOf ["nulib2", "-a0z", "archive.shk"]).drop 2).dropWhile isBundle =
      ["archive.shk".toList] ∧
    (ProcessOptions allFeatures clearState (argvOf ["nulib2", "-a0z", "archive.shk"])).outcome =
      Outcome.fail ParseError.conflict := by
  decide

/-- C10, amended: when `ProcessOptions` returns 0 and the selected command
requires a file list (Add, Delete), the recorded file-spec count is at least 1
and the recorded list is not empty; and when no token follows the archive path
for such a command and no earlier check failed (no modifier diagnostic, no
`-0`/`-z` conflict, no pipe diagnostic), `ProcessOptions` fails with the
file-list diagnostic and returns -1.  `-d archive.shk` fails with the
file-list diagnostic. -/
theorem C10_filespec_required :
    (∀ (feat : Features) (pState : NulibState) (argv : List Token), WellFormed argv →
      (ProcessOptions feat pState argv).outcome = Outcome.ok →
      IsFilespecRequired (ProcessOptions feat pState argv).ps.command = true →
      1 ≤ (ProcessOptions feat pState argv).ps.filespecCount ∧
      (ProcessOptions feat pState argv).ps.filespecs ≠ []) ∧
    (∀ (feat : Features) (pState : NulibState) (argv : List Token) (arch : Token)
        (cmd : Command), WellFormed argv →
      (argv.drop 2).dropWhile isBundle = [arch] →
      specCommandOfToken (argv.getD 1 []) = some cmd → IsFilespecRequired cmd = true →
      (∀ e, (ProcessOptions feat pState argv).outcome = Outcome.fail e →
        e.isModifierError = false) →
      (ProcessOptions feat pState argv).outcome ≠ Outcome.fail ParseError.conflict →
      (ProcessOptions feat pState argv).outcome ≠ Outcome.fail ParseError.noPipe →
      (ProcessOptions feat pState argv).outcome = Outcome.fail ParseError.needFiles ∧
      (ProcessOptions feat pState argv).outcome.ret = some (-1)) ∧
    (∀ feat : Features,
      (ProcessOptions feat clearState (argvOf ["nulib2", "-d", "archive.shk"])).outcome =
        Outcome.fail ParseError.needFiles) := by
  refine ⟨?_, ?_, ?_⟩
  · intro feat pState argv hwf hok hreq
    obtain ⟨prog, t1, toks, m, arch, files, c, hargv, -, hfin, -, -, -, -, -⟩ :=
      ProcessOptions_ok_inv hwf hok
    subst hargv
    rw [hfin] at hok hreq ⊢
    obtain ⟨-, arch1, files1, hrest, -, hfiles, hps⟩ := finishOptions_ok hok
    cases hrest
    rw [hps] at hreq ⊢
    have hreq1 : IsFilespecRequired m.ps.command = true := hreq
    cases files with
    | nil =>
      rw [hfiles rfl] at hreq1
      cases hreq1
    | cons f fs =>
      constructor
      · show (1 : Int) ≤ ((f :: fs).length : Int)
        simp only [List.length_cons, Nat.cast_add, Nat.cast_one]
        omega
      · simp [NulibState.filespecs, NState_SetFilespecCount, NState_SetFilespecPointer]
  · intro feat pState argv arch cmd hwf harch hsel hreq hmod hconf hpipe
    have hlen : 3 ≤ argv.length := by
      by_contra h
      have : argv.drop 2 = [] := List.drop_eq_nil_of_le (by omega)
      rw [this] at harch
      cases harch
    rcases ProcessOptions_selected feat pState hwf hlen hsel with ⟨e, he, hme⟩ | ⟨m, hcmd, hfin⟩
    · rw [hmod e he] at hme
      cases hme
    · rw [hfin, harch] at hconf hpipe ⊢
      unfold finishOptions at hconf hpipe ⊢
      by_cases hc : m.ps.modNoCompression = true ∧ m.ps.modCompressDeflate = true
      · rw [if_pos hc] at hconf
        exact absurd rfl hconf
      · rw [if_neg hc] at hpipe ⊢
        simp only [] at hpipe ⊢
        by_cases hp : IsFilenameStdin arch = true ∧
            IsValidOnPipe (NState_SetArchiveFilename m.ps arch).command = false
        · rw [if_pos hp] at hpipe
          exact absurd rfl hpipe
        · have hr : IsFilespecRequired (NState_SetArchiveFilename m.ps arch).command = true := by
            rw [← hcmd] at hreq; exact hreq
          rw [if_neg hp, if_pos hr]
          exact ⟨rfl, rfl⟩
  · intro feat
    obtain ⟨d, b⟩ := feat
    cases d <;> cases b <;> decide

/-- C10 at `-d archive.shk f1`, which succeeds with one file spec, and at
`-d archive.shk`, which ends in the file-list diagnostic. -/
theorem C10_filespec_required_witness :
    WellFormed (argvOf ["nulib2", "-d", "archive.shk", "f1"]) ∧
    (ProcessOptions allFeatures clearState
      (argvOf ["nulib2", "-d", "archive.shk", "f1"])).outcome = Outcome.ok ∧
    IsFilespecRequired (ProcessOptions allFeatures clearState
      (argvOf ["nulib2", "-d", "archive.shk", "f1"])).ps.command = true ∧
    1 ≤ (ProcessOptions allFeatures clearState
      (argvOf ["nulib2", "-d", "archive.shk", "f1"])).ps.filespecCount ∧
    WellFormed (argvOf ["nulib2", "-d", "archive.shk"]) ∧
    ((argvOf ["nulib2", "-d", "archive.shk"]).drop 2).dropWhile isBundle =
      ["archive.shk".toList] ∧
    specCommandOfToken ((argvOf ["nulib2", "-d", "archive.shk"]).getD 1 []) =
      some kCommandDelete ∧
    (ProcessOptions allFeatures clearState
      (argvOf ["nulib2", "-d", "archive.shk"])).outcome =
        Outcome.fail ParseError.needFiles :=
  ⟨by decide, by decide, by decide,
    (C10_filespec_required.1 allFeatures clearState
      (argvOf ["nulib2", "-d", "archive.shk", "f1"]) (by decide) (by decide)
      (by decide)).1,
    by decide, by decide, by decide,
    (C10_filespec_required.2.1 allFeatures clearState
      (argvOf ["nulib2", "-d", "archive.shk"]) "archive.shk".toList kCommandDelete
      (by decide) (by decide) (by decide) (by decide)
      (fun e he => by
        have h : (ProcessOptions allFeatures clearState
            (argvOf ["nulib2", "-d", "archive.shk"])).outcome =
            Outcome.fail ParseError.needFiles := by
          decide
        rw [h] at he
        cases he
        rfl)
      (by decide) (by decide)).1⟩

/-! ## Claims about letter case and the help short-circuit -/

/-- C11 fails on the code: letter case changes the outcome in three places.
A sole `-H` gives the usage text while a sole `-h` (and a sole `H`) gives the
extended help; `-aEE` leaves `preserveTypeExtended` unset while `-aee` sets
it; `-aZZ` sets `compressDeflate` while `-azz` sets `compressBzip2`. -/
theorem C11_letter_case_changes_the_outcome :
    (ProcessOptions allFeatures clearState (argvOf ["nulib2", "-h"])).outcome = Outcome.help ∧
    (ProcessOptions allFeatures clearState (argvOf ["nulib2", "H"])).outcome = Outcome.help ∧
    (ProcessOptions allFeatures clearState (argvOf ["nulib2", "-H"])).outcome = Outcome.usage ∧
    (ProcessOptions allFeatures clearState
      (argvOf ["nulib2", "-aee", "archive.shk", "f1"])).outcome = Outcome.ok ∧
    (ProcessOptions allFeatures clearState
      (argvOf ["nulib2", "-aee", "archive.shk", "f1"])).ps.modPreserveTypeExtended = true ∧
    (ProcessOptions allFeatures clearState
      (argvOf ["nulib2", "-aEE", "archive.shk", "f1"])).outcome = Outcome.ok ∧
    (ProcessOptions allFeatures clearState
      (argvOf ["nulib2", "-aEE", "archive.shk", "f1"])).ps.modPreserveTypeExtended = false ∧
    (ProcessOptions allFeatures clearState
      (argvOf ["nulib2", "-azz", "archive.shk", "f1"])).outcome = Outcome.ok ∧
    (ProcessOptions allFeatures clearState
      (argvOf ["nulib2", "-azz", "archive.shk", "f1"])).ps.modCompressBzip2 = true ∧
    (ProcessOptions allFeatures clearState
      (argvOf ["nulib2", "-azz", "archive.shk", "f1"])).ps.modCompressDeflate = false ∧
    (ProcessOptions allFeatures clearState
      (argvOf ["nulib2", "-aZZ", "archive.shk", "f1"])).outcome = Outcome.ok ∧
    (ProcessOptions allFeatures clearState
      (argvOf ["nulib2", "-aZZ", "archive.shk", "f1"])).ps.modCompressBzip2 = false ∧
    (ProcessOptions allFeatures clearState
      (argvOf ["nulib2", "-aZZ", "archive.shk", "f1"])).ps.modCompressDeflate = true := by
  decide

/-- C12: when the only token after the program name is `-h` or a bare `h`,
`ProcessOptions` takes the branch that calls `DoHelp`, not the one that calls
`Usage`, returns -1 and leaves the parse state as it was (no command, no
archive path, no flag is written); whereas a sole token that selects any other
command by the spec's mapping gets the usage text, as does an argument vector
without any token after the program name. -/
theorem C12_sole_help_token :
    (∀ (feat : Features) (pState : NulibState) (prog : Token),
      ProcessOptions feat pState [prog, ['-', 'h']] =
        { outcome := Outcome.help, ps := pState, warnings := [] } ∧
      ProcessOptions feat pState [prog, ['h']] =
        { outcome := Outcome.help, ps := pState, warnings := [] } ∧
      Outcome.help ≠ Outcome.usage ∧ Outcome.help.ret = some (-1)) ∧
    (∀ (feat : Features) (pState : NulibState) (prog t : Token) (cmd : Command),
      specCommandOfToken t = some cmd → cmd ≠ kCommandHelp →
      ProcessOptions feat pState [prog, t] =
        { outcome := Outcome.usage, ps := pState, warnings := [] }) ∧
    (∀ (feat : Features) (pState : NulibState) (prog : Token),
      ProcessOptions feat pState [prog] =
        { outcome := Outcome.usage, ps := pState, warnings := [] }) := by
  refine ⟨?_, ?_, ?_⟩
  · intro feat pState prog
    exact ⟨rfl, rfl, by decide, rfl⟩
  · intro feat pState prog t cmd hsel hne
    have hspec : specCommandOfToken t = (afterHyphen t).head?.bind selectCommand := by
      unfold specCommandOfToken
      congr 1
      funext c
      exact (selectCommand_eq_spec c).symm
    rw [hspec] at hsel
    have hnoth : ∀ c, selectCommand c = some cmd → tolower c ≠ 'h' := by
      intro c hc hh
      unfold selectCommand at hc
      rw [hh] at hc
      cases hc
      exact hne rfl
    have hcond : ¬ (([prog, t] : List Token).length = 2 ∧
        (tolower (charAt (([prog, t] : List Token).getD 1 []) 0) = 'h' ∨
          (charAt (([prog, t] : List Token).getD 1 []) 0 = '-' ∧
            tolower (Char.ofNat
              (if charAt (([prog, t] : List Token).getD 1 []) 1 = 'h' then 1 else 0))
              ≠ NUL))) := by
      have hget : ([prog, t] : List Token).getD 1 [] = t := rfl
      rw [hget]
      rintro ⟨-, h | ⟨h1, h2⟩⟩
      · cases t with
        | nil => exact absurd h (by decide)
        | cons c cs =>
          have hc0 : charAt (c :: cs) 0 = c := rfl
          rw [hc0] at h
          by_cases hc : c = '-'
          · subst hc
            exact absurd h (by decide)
          · have : selectCommand c = some cmd := by
              simpa [afterHyphen, hc] using hsel
            exact hnoth c this h
      · cases t with
        | nil => exact absurd h1 (by decide)
        | cons c cs =>
          have hc0 : charAt (c :: cs) 0 = c := rfl
          rw [hc0] at h1
          subst h1
          cases cs with
          | nil => simp [afterHyphen] at hsel
          | cons d ds =>
            have hd1 : charAt ('-' :: d :: ds) 1 = d := rfl
            rw [hd1] at h2
            have hsd : selectCommand d = some cmd := by
              simpa [afterHyphen] using hsel
            by_cases hd : d = 'h'
            · subst hd
              exact hnoth 'h' hsd rfl
            · rw [if_neg hd] at h2
              exact h2 (by decide)
    have hlt : ([prog, t] : List Token).length < 3 := by simp
    unfold ProcessOptions
    simp only []
    rw [if_neg hcond, if_pos hlt]
  · intro feat pState prog
    rfl

/-- C12 at a sole `-x`, which selects Extract and gets the usage text. -/
theorem C12_sole_help_token_witness :
    specCommandOfToken ['-', 'x'] = some kCommandExtract ∧
    kCommandExtract ≠ kCommandHelp ∧
    ProcessOptions allFeatures clearState [['n'], ['-', 'x']] =
      { outcome := Outcome.usage, ps := clearState, warnings := [] } :=
  ⟨by decide, by decide,
    C12_sole_help_token.2.1 allFeatures clearState ['n'] ['-', 'x'] kCommandExtract
      (by decide) (by decide)⟩

/-! ## Claims about the `e` and `z` letters and the table -/

/-- C13: parsing `-ae archive.shk f1` from a clear state succeeds and sets
`preserveType` and no other modifier flag; in general an `e` (of either case)
whose preceding character in the token is not `e` sets `preserveType`, leaves
every other field of the state as it was, writes no warning and does not
advance the scan position further. -/
theorem C13_single_e_sets_preserveType_only :
    (∀ feat : Features,
      ProcessOptions feat clearState (argvOf ["nulib2", "-ae", "archive.shk", "f1"]) =
        { outcome := Outcome.ok,
          ps := { clearState with
            command := kCommandAdd,
            modPreserveType := true,
            archiveFilename := some "archive.shk".toList,
            filespecPointer := some (argvOf ["f1"]),
            filespecCount := 1 },
          warnings := [] }) ∧
    (∀ (feat : Features) (p : Char) (before : List Char) (c next : Char) (m : Mach),
      tolower c = 'e' → p ≠ 'e' →
      applyModifier feat (p :: before) c next m =
        .ok ({ ps := { m.ps with modPreserveType := true }, warnings := m.warnings },
          false)) := by
  constructor
  · intro feat
    rfl
  · intro feat p before c next m hc hp
    unfold applyModifier
    rw [hc]
    simp only [if_neg hp]
    rfl

/-- C13 at the `E` of `-aE`, which follows the command letter `a`. -/
theorem C13_single_e_sets_preserveType_only_witness :
    tolower 'E' = 'e' ∧ 'a' ≠ 'e' ∧
    applyModifier allFeatures ['a', '-'] 'E' NUL
        { ps := NState_SetCommand clearState kCommandAdd, warnings := [] } =
      .ok ({ ps := { NState_SetCommand clearState kCommandAdd with modPreserveType := true },
             warnings := [] }, false) :=
  ⟨by decide, by decide,
    C13_single_e_sets_preserveType_only.2 allFeatures 'a' ['-'] 'E' NUL
      { ps := NState_SetCommand clearState kCommandAdd, warnings := [] }
      (by decide) (by decide)⟩

/-- C14: the capability table has nine entries, no two with the same command,
and for each of the nine commands `FindValidComboEntry` returns an entry whose
`cmd` field is that command, the only entry of the table for it; hence no
command that the command switch can select reaches a not-found branch of
`IsValidModifier`, `IsValidOnPipe` or `IsFilespecRequired`. -/
theorem C14_one_table_entry_per_command :
    gValidCombos.length = 9 ∧
    (gValidCombos.map (fun e => e.cmd)).Nodup ∧
    (∀ cmd : Command, ∃ row, FindValidComboEntry cmd = some row ∧ row.cmd = cmd ∧
      gValidCombos.filter (fun e => decide (e.cmd = cmd)) = [row]) ∧
    (∀ (c : Char) (cmd : Command), selectCommand c = some cmd →
      FindValidComboEntry cmd ≠ none) := by
  refine ⟨by decide, by decide, ?_, ?_⟩
  · intro cmd
    cases cmd <;> exact ⟨_, rfl, rfl, rfl⟩
  · intro c cmd _
    cases cmd <;> decide

/-- C14 at the letter `G`, which selects ListDebug. -/
theorem C14_one_table_entry_per_command_witness :
    selectCommand 'G' = some kCommandListDebug ∧
    FindValidComboEntry kCommandListDebug ≠ none :=
  ⟨by decide, C14_one_table_entry_per_command.2.2.2 'G' kCommandListDebug (by decide)⟩

/-- C18: for the Add command from a clear state, a `z` not followed by `z` sets
`compressDeflate` exactly when the deflate feature is available and never
`compressBzip2`; a `zz` pair sets `compressBzip2` exactly when the bzip2
feature is available and never `compressDeflate`; when the feature is missing
a warning is written, no flag is set and the parse goes on.  So
`-a0z archive.shk f1` without deflate succeeds with `noCompression` as its only
flag, and `-a0zz archive.shk f1` never ends in the conflict diagnostic. -/
theorem C18_z_and_zz_follow_the_features :
    (∀ (feat : Features) (before : List Char) (c next : Char) (m : Mach),
      tolower c = 'z' →
      (next ≠ 'z' → applyModifier feat before c next m =
        if feat.deflate = true then .ok (m.set NState_SetModCompressDeflate, false)
        else .ok (m.warn Warning.noZlib, false)) ∧
      (next = 'z' → applyModifier feat before c next m =
        if feat.bzip2 = true then .ok (m.set NState_SetModCompressBzip2, true)
        else .ok (m.warn Warning.noBzip2, true))) ∧
    (∀ feat : Features,
      ProcessOptions feat clearState (argvOf ["nulib2", "-az", "archive.shk", "f1"]) =
        { outcome := Outcome.ok,
          ps := { clearState with
            command := kCommandAdd,
            modCompressDeflate := feat.deflate,
            archiveFilename := some "archive.shk".toList,
            filespecPointer := some (argvOf ["f1"]),
            filespecCount := 1 },
          warnings := if feat.deflate = true then [] else [Warning.noZlib] } ∧
      ProcessOptions feat clearState (argvOf ["nulib2", "-azz", "archive.shk", "f1"]) =
        { outcome := Outcome.ok,
          ps := { clearState with
            command := kCommandAdd,
            modCompressBzip2 := feat.bzip2,
            archiveFilename := some "archive.shk".toList,
            filespecPointer := some (argvOf ["f1"]),
            filespecCount := 1 },
          warnings := if feat.bzip2 = true then [] else [Warning.noBzip2] } ∧
      (ProcessOptions feat clearState
        (argvOf ["nulib2", "-a0zz", "archive.shk", "f1"])).outcome = Outcome.ok ∧
      (ProcessOptions feat clearState
        (argvOf ["nulib2", "-a0zz", "archive.shk", "f1"])).ps.modNoCompression = true ∧
      (ProcessOptions feat clearState
        (argvOf ["nulib2", "-a0zz", "archive.shk", "f1"])).ps.modCompressDeflate = false) ∧
    (∀ feat : Features, feat.deflate = false →
      ProcessOptions feat clearState (argvOf ["nulib2", "-a0z", "archive.shk", "f1"]) =
        { outcome := Outcome.ok,
          ps := { clearState with
            command := kCommandAdd,
            modNoCompression := true,
            archiveFilename := some "archive.shk".toList,
            filespecPointer := some (argvOf ["f1"]),
            filespecCount := 1 },
          warnings := [Warning.noZlib] }) := by
  refine ⟨?_, ?_, ?_⟩
  · intro feat before c next m hc
    constructor
    · intro hn
      unfold applyModifier
      rw [hc]
      simp only [if_neg hn]
    · intro hn
      unfold applyModifier
      rw [hc]
      simp only [if_pos hn]
  · intro feat
    obtain ⟨d, b⟩ := feat
    cases d <;> cases b <;> exact ⟨rfl, rfl, rfl, rfl, rfl⟩
  · intro feat hd
    obtain ⟨d, b⟩ := feat
    simp only at hd
    subst hd
    cases b <;> rfl

/-- C18 at `-a0z archive.shk f1` with bzip2 but no deflate in the library. -/
theorem C18_z_and_zz_follow_the_features_witness :
    ({ deflate := false, bzip2 := true } : Features).deflate = false ∧
    (ProcessOptions { deflate := false, bzip2 := true } clearState
      (argvOf ["nulib2", "-a0z", "archive.shk", "f1"])).outcome = Outcome.ok ∧
    (ProcessOptions { deflate := false, bzip2 := true } clearState
      (argvOf ["nulib2", "-a0z", "archive.shk", "f1"])).ps.modCompressDeflate = false ∧
    ProcessOptions { deflate := false, bzip2 := true } clearState
        (argvOf ["nulib2", "-a0z", "archive.shk", "f1"]) =
      { outcome := Outcome.ok,
        ps := { clearState with
          command := kCommandAdd,
          modNoCompression := true,
          archiveFilename := some "archive.shk".toList,
          filespecPointer := some (argvOf ["f1"]),
          filespecCount := 1 },
        warnings := [Warning.noZlib] } :=
  ⟨rfl, by decide, by decide,
    C18_z_and_zz_follow_the_features.2.2 { deflate := false, bzip2 := true } rfl⟩

/-- C19 fails on the code: in `-a -r` both tokens are option bundles, the token
loop runs to `idx == argc`, and `Assert(idx < argc)` is violated; no archive
path is recorded. -/
theorem C19_assert_fails_without_archive_token :
    (ProcessOptions allFeatures clearState (argvOf ["nulib2", "-a", "-r"])).outcome =
      Outcome.assertFailed ∧
    (ProcessOptions allFeatures clearState (argvOf ["nulib2", "-a", "-r"])).outcome.ret =
      none ∧
    (ProcessOptions allFeatures clearState (argvOf ["nulib2", "-a", "-r"])).ps.archiveFilename =
      none ∧
    scanArgs allFeatures 1 (argvOf ["-a", "-r"]) { ps := clearState, warnings := [] } =
      .ok ({ ps := NState_SetModRecurse (NState_SetCommand clearState kCommandAdd) true,
             warnings := [] }, []) :=
  ⟨by decide, by decide, by decide, rfl⟩

/-! ## The lookback of the `e` and `l` cases -/

theorem scanModifiers_no_readBefore (feat : Features) :
    ∀ (n : Nat) (cs before : List Char) (m m1 : Mach), cs.length ≤ n → before ≠ [] →
      scanModifiers feat before cs m ≠ .error (Stop.readBeforeToken, m1) := by
  intro n
  induction n with
  | zero =>
    intro cs before m m1 hlen _ h
    have hcs : cs = [] := List.length_eq_zero.mp (Nat.le_zero.mp hlen)
    subst hcs
    rw [scanModifiers] at h
    cases h
  | succ n ih =>
    intro cs before m m1 hlen hb h
    match cs, hlen, h with
    | [], _, h =>
      rw [scanModifiers] at h
      cases h
    | [c], _, h =>
      rw [scanModifiers] at h
      by_cases hc : c = NUL
      · rw [if_pos hc] at h
        cases h
      · rw [if_neg hc] at h
        cases happ : applyModifier feat before c NUL m with
        | error e =>
          have he := applyModifier_error happ hb
          rw [happ, he] at h
          cases h
        | ok r =>
          obtain ⟨m2, adv⟩ := r
          rw [happ] at h
          simp only [] at h
          split at h <;> cases h
    | c :: d :: rest, hlen, h =>
      have hlen1 : (d :: rest).length ≤ n := by simp at hlen ⊢; omega
      have hlen2 : rest.length ≤ n := by simp at hlen ⊢; omega
      rw [scanModifiers] at h
      by_cases hc : c = NUL
      · rw [if_pos hc] at h
        cases h
      · rw [if_neg hc] at h
        cases happ : applyModifier feat before c d m with
        | error e =>
          have he := applyModifier_error happ hb
          rw [happ, he] at h
          cases h
        | ok r =>
          obtain ⟨m2, adv⟩ := r
          rw [happ] at h
          cases adv with
          | true =>
            simp only [] at h
            split at h
            · cases h
            · exact ih rest (d :: c :: before) m2 m1 hlen2 (by simp) h
          | false =>
            simp only [] at h
            split at h
            · cases h
            · exact ih (d :: rest) (c :: before) m2 m1 hlen1 (by simp) h

theorem scanArgs_no_readBefore (feat : Features) :
    ∀ (toks : List Token) (idx : Nat) (m m1 : Mach), 1 ≤ idx →
      scanArgs feat idx toks m ≠ .error (Stop.readBeforeToken, m1) := by
  intro toks
  induction toks with
  | nil =>
    intro idx m m1 _ h
    rw [scanArgs] at h
    cases h
  | cons tok toks ih =>
    intro idx m m1 hidx h
    rw [scanArgs] at h
    by_cases h0 : 1 < idx ∧ charAt tok 0 ≠ '-'
    · rw [if_pos h0] at h
      cases h
    · rw [if_neg h0] at h
      have hbefore : idx ≠ 1 → (skipHyphen tok).1 ≠ [] := by
        intro hne
        have h1 : 1 < idx := by omega
        have h2 : charAt tok 0 = '-' := by
          by_contra hx
          exact h0 ⟨h1, hx⟩
        cases tok with
        | nil => exact absurd h2 (by decide)
        | cons c cs =>
          have hc : c = '-' := h2
          simp [skipHyphen, hc]
      rw [skipHyphen_eq] at h
      revert hbefore h
      generalize (skipHyphen tok).1 = before
      intro h hbefore
      cases hcp : afterHyphen tok with
      | nil =>
        rw [hcp] at h
        simp only [] at h
        split at h <;> cases h
      | cons c cs =>
        rw [hcp] at h
        simp only [] at h
        by_cases hc : c = NUL
        · rw [if_pos hc] at h
          split at h <;> cases h
        · rw [if_neg hc] at h
          by_cases hi : idx = 1
          · rw [if_pos hi] at h
            cases hsel : selectCommand c with
            | none =>
              rw [hsel] at h
              cases h
            | some cmd =>
              rw [hsel] at h
              simp only [] at h
              cases hscan : scanModifiers feat (c :: before) cs
                  { m with ps := NState_SetCommand m.ps cmd } with
              | error e =>
                rw [hscan] at h
                simp only [] at h
                cases h
                exact scanModifiers_no_readBefore feat cs.length cs (c :: before) _ m1
                  (le_refl _) (by simp) hscan
              | ok m2 =>
                rw [hscan] at h
                exact ih (idx + 1) m2 m1 (by omega) h
          · rw [if_neg hi] at h
            cases hscan : scanModifiers feat before (c :: cs) m with
            | error e =>
              rw [hscan] at h
              simp only [] at h
              cases h
              exact scanModifiers_no_readBefore feat (c :: cs).length (c :: cs) before m m1
                (le_refl _) (hbefore hi) hscan
            | ok m2 =>
              rw [hscan] at h
              exact ih (idx + 1) m2 m1 (by omega) h

/-- C20: the lookback `*(cp-1)` of the `e` and `l` cases never reads in front of
the current token.  The switch reports such a read exactly when it runs the
`e` or `l` case with nothing in front of `cp`; the scan of a token starts with
what `cp` has passed (the leading hyphen, if any) in front of it, and for every
argument vector `ProcessOptions` and its token loop never end in such a
read. -/
theorem C20_lookback_stays_inside_the_token :
    (∀ (feat : Features) (pState : NulibState) (argv : List Token),
      (ProcessOptions feat pState argv).outcome ≠ Outcome.readBeforeToken) ∧
    (∀ (feat : Features) (toks : List Token) (m m1 : Mach),
      scanArgs feat 1 toks m ≠ .error (Stop.readBeforeToken, m1)) ∧
    (∀ (feat : Features) (before : List Char) (c next : Char) (m : Mach),
      applyModifier feat before c next m = .error Stop.readBeforeToken ↔
        before = [] ∧ (tolower c = 'e' ∨ tolower c = 'l')) ∧
    (∀ tok : Token, (skipHyphen tok).1.reverse ++ (skipHyphen tok).2 = tok) := by
  refine ⟨?_, ?_, ?_, ?_⟩
  · intro feat pState argv h
    unfold ProcessOptions at h
    simp only [] at h
    by_cases h1 : argv.length = 2 ∧ (tolower (charAt (argv.getD 1 []) 0) = 'h' ∨
        (charAt (argv.getD 1 []) 0 = '-' ∧
          tolower (Char.ofNat (if charAt (argv.getD 1 []) 1 = 'h' then 1 else 0)) ≠ NUL))
    · rw [if_pos h1] at h
      cases h
    · rw [if_neg h1] at h
      by_cases h2 : argv.length < 3
      · rw [if_pos h2] at h
        cases h
      · rw [if_neg h2] at h
        cases hscan : scanArgs feat 1 (argv.drop 1) { ps := pState, warnings := [] } with
        | error e =>
          obtain ⟨s, m1⟩ := e
          cases s with
          | fail e =>
            rw [hscan] at h
            cases h
          | readBeforeToken =>
            exact scanArgs_no_readBefore feat _ 1 _ m1 (le_refl _) hscan
        | ok r =>
          obtain ⟨m1, rest⟩ := r
          rw [hscan] at h
          simp only [] at h
          unfold finishOptions at h
          split at h
          · cases h
          · split at h
            · cases h
            · simp only [] at h
              split at h
              · cases h
              · split at h
                · cases h
                · split at h <;> cases h
  · intro feat toks m m1
    exact scanArgs_no_readBefore feat toks 1 m m1 (le_refl _)
  · intro feat before c next m
    constructor
    · intro h
      unfold applyModifier at h
      split at h
      case h_10 => split at h <;> split at h <;> cases h
      case h_11 he =>
        split at h
        · exact ⟨rfl, Or.inl he⟩
        · split at h <;> cases h
      case h_12 hl =>
        split at h
        · exact ⟨rfl, Or.inr hl⟩
        · split at h <;> cases h
      case h_13 => cases h
      all_goals cases h
    · rintro ⟨hb, he | hl⟩
      · subst hb
        unfold applyModifier
        rw [he]
        rfl
      · subst hb
        unfold applyModifier
        rw [hl]
        rfl
  · intro tok
    cases tok with
    | nil => rfl
    | cons c cs =>
      by_cases hc : c = '-'
      · simp [skipHyphen, hc]
      · simp [skipHyphen, hc]

/-! ## Claims about the dispatcher and the exit status -/

theorem workStatus_eq_zero (err : NuError) : workStatus err = 0 ↔ err = NuError.kNuErrNone := by
  unfold workStatus
  by_cases h : err = NuError.kNuErrNone
  · simp [h]
  · simp [h]

theorem workStatus_of_ne {err : NuError} (h : err ≠ NuError.kNuErrNone) : workStatus err = 1 := by
  unfold workStatus
  rw [if_pos h]

theorem DoWork_eq (ext : Handler → NulibState → NuError) (pState : NulibState) :
    DoWork ext pState =
      { called := [specHandler pState.command], unexpected := false,
        ret := workStatus (callHandler ext (specHandler pState.command) pState) } := by
  unfold DoWork
  cases pState.command <;> rfl

/-- C15: for each of the nine commands `DoWork` calls exactly one handler, the
one the spec maps the command to, does not take the `default` branch, and
returns 0 when that handler returned `kNuErrNone` and 1 for every other
result of the handler; the `default` branch, which a command value outside the
nine would take, calls no handler and returns 1. -/
theorem C15_DoWork_dispatches_one_handler :
    (∀ (ext : Handler → NulibState → NuError) (pState : NulibState),
      (DoWork ext pState).called = [specHandler pState.command] ∧
      (DoWork ext pState).unexpected = false ∧
      (callHandler ext (specHandler pState.command) pState = NuError.kNuErrNone →
        (DoWork ext pState).ret = 0) ∧
      (callHandler ext (specHandler pState.command) pState ≠ NuError.kNuErrNone →
        (DoWork ext pState).ret = 1)) ∧
    (∀ (ext : Handler → NulibState → NuError) (pState : NulibState),
      DoWorkSwitch ext pState none = { called := [], unexpected := true, ret := 1 }) := by
  constructor
  · intro ext pState
    rw [DoWork_eq]
    refine ⟨rfl, rfl, ?_, ?_⟩
    · intro h
      exact (workStatus_eq_zero _).mpr h
    · intro h
      exact workStatus_of_ne h
  · intro ext pState
    rfl

/-- C15 at the Delete command with a handler that succeeds and with one that
fails. -/
theorem C15_DoWork_dispatches_one_handler_witness :
    callHandler allSucceed (specHandler (NState_SetCommand clearState kCommandDelete).command)
      (NState_SetCommand clearState kCommandDelete) = NuError.kNuErrNone ∧
    DoWork allSucceed (NState_SetCommand clearState kCommandDelete) =
      { called := [Handler.DoDelete], unexpected := false, ret := 0 } ∧
    (DoWork allSucceed (NState_SetCommand clearState kCommandDelete)).ret = 0 ∧
    callHandler allFail (specHandler (NState_SetCommand clearState kCommandDelete).command)
      (NState_SetCommand clearState kCommandDelete) ≠ NuError.kNuErrNone ∧
    (DoWork allFail (NState_SetCommand clearState kCommandDelete)).ret = 1 :=
  ⟨by decide, by decide,
    (C15_DoWork_dispatches_one_handler.1 allSucceed
      (NState_SetCommand clearState kCommandDelete)).2.2.1 (by decide),
    by decide,
    (C15_DoWork_dispatches_one_handler.1 allFail
      (NState_SetCommand clearState kCommandDelete)).2.2.2 (by decide)⟩

theorem main_of_ok (feat : Features) (pState : NulibState)
    (extraInit : NulibState → Option NulibState) (ext : Handler → NulibState → NuError)
    (argv : List Token) (hok : (ProcessOptions feat pState argv).outcome = Outcome.ok) :
    main feat (some pState) extraInit ext argv =
      match extraInit (ProcessOptions feat pState argv).ps with
      | none => { status := some 1, called := [] }
      | some s => { status := some (DoWork ext s).ret, called := (DoWork ext s).called } := by
  have hret : (ProcessOptions feat pState argv).outcome.ret = some 0 := by rw [hok]; rfl
  unfold main
  simp only [hret]
  rfl

theorem main_of_fail (feat : Features) (pState : NulibState)
    (extraInit : NulibState → Option NulibState) (ext : Handler → NulibState → NuError)
    (argv : List Token) (hret : (ProcessOptions feat pState argv).outcome.ret = some (-1)) :
    main feat (some pState) extraInit ext argv = { status := some 2, called := [] } := by
  unfold main
  simp only [hret]
  rfl

theorem ret_cases (o : Outcome) :
    (o = Outcome.ok ∧ o.ret = some 0) ∨ (o ≠ Outcome.ok ∧ o.ret = some (-1)) ∨
      (o ≠ Outcome.ok ∧ o.ret = none) := by
  cases o
  · exact Or.inl ⟨rfl, rfl⟩
  · exact Or.inr (Or.inl ⟨(by intro h; cases h), rfl⟩)
  · exact Or.inr (Or.inl ⟨(by intro h; cases h), rfl⟩)
  · exact Or.inr (Or.inl ⟨(by intro h; cases h), rfl⟩)
  · exact Or.inr (Or.inr ⟨(by intro h; cases h), rfl⟩)
  · exact Or.inr (Or.inr ⟨(by intro h; cases h), rfl⟩)

/-- C16: when `NState_Init` succeeds, the exit status of `main` is 0 exactly when
`ProcessOptions` returned 0, the additional initialisation succeeded and the
handler `DoWork` dispatched returned `kNuErrNone`; when `ProcessOptions`
returns -1 (extended help, usage text or any fatal diagnostic) `DoWork` is not
run, no handler is dispatched and the exit status is 2; when the parse
succeeds and the dispatched handler fails the exit status is 1 (as it is,
without any handler run, when the additional initialisation fails). -/
theorem C16_exit_status_of_main (feat : Features) (pState : NulibState)
    (extraInit : NulibState → Option NulibState) (ext : Handler → NulibState → NuError)
    (argv : List Token) :
    ((main feat (some pState) extraInit ext argv).status = some 0 ↔
      (ProcessOptions feat pState argv).outcome = Outcome.ok ∧
      ∃ s, extraInit (ProcessOptions feat pState argv).ps = some s ∧
        (main feat (some pState) extraInit ext argv).called = [specHandler s.command] ∧
        callHandler ext (specHandler s.command) s = NuError.kNuErrNone) ∧
    ((ProcessOptions feat pState argv).outcome.ret = some (-1) →
      (main feat (some pState) extraInit ext argv).status = some 2 ∧
      (main feat (some pState) extraInit ext argv).called = []) ∧
    ((ProcessOptions feat pState argv).outcome = Outcome.ok →
      ∀ s, extraInit (ProcessOptions feat pState argv).ps = some s →
        (main feat (some pState) extraInit ext argv).called = [specHandler s.command] ∧
        (callHandler ext (specHandler s.command) s ≠ NuError.kNuErrNone →
          (main feat (some pState) extraInit ext argv).status = some 1)) ∧
    ((ProcessOptions feat pState argv).outcome = Outcome.ok →
      extraInit (ProcessOptions feat pState argv).ps = none →
      (main feat (some pState) extraInit ext argv).status = some 1 ∧
      (main feat (some pState) extraInit ext argv).called = []) := by
  refine ⟨?_, ?_, ?_, ?_⟩
  · rcases ret_cases (ProcessOptions feat pState argv).outcome with
      ⟨hok, -⟩ | ⟨hne, hret⟩ | ⟨hne, hret⟩
    · rw [main_of_ok feat pState extraInit ext argv hok]
      cases hx : extraInit (ProcessOptions feat pState argv).ps with
      | none =>
        constructor
        · intro h; cases h
        · rintro ⟨-, s, hs, -⟩; cases hs
      | some s =>
        simp only [DoWork_eq]
        constructor
        · intro h
          have h0 : workStatus (callHandler ext (specHandler s.command) s) = 0 := by
            simpa using h
          exact ⟨hok, s, rfl, rfl, (workStatus_eq_zero _).mp h0⟩
        · rintro ⟨-, s1, hs, -, hcall⟩
          cases hs
          show some (workStatus (callHandler ext (specHandler s.command) s)) = some 0
          rw [(workStatus_eq_zero _).mpr hcall]
    · rw [main_of_fail feat pState extraInit ext argv hret]
      constructor
      · intro h; cases h
      · rintro ⟨hok, -⟩; exact absurd hok hne
    · constructor
      · intro h
        unfold main at h
        simp only [hret] at h
        cases h
      · rintro ⟨hok, -⟩; exact absurd hok hne
  · intro hret
    rw [main_of_fail feat pState extraInit ext argv hret]
    exact ⟨rfl, rfl⟩
  · intro hok s hs
    rw [main_of_ok feat pState extraInit ext argv hok, hs]
    show (DoWork ext s).called = [specHandler s.command] ∧
      (callHandler ext (specHandler s.command) s ≠ NuError.kNuErrNone →
        some (DoWork ext s).ret = some 1)
    rw [DoWork_eq]
    refine ⟨rfl, ?_⟩
    intro hne
    show some (workStatus (callHandler ext (specHandler s.command) s)) = some 1
    rw [workStatus_of_ne hne]
  · intro hok hx
    rw [main_of_ok feat pState extraInit ext argv hok, hx]
    exact ⟨rfl, rfl⟩

/-- C16 at `-x archive.shk` with handlers that fail (exit status 1), at
`-x archive.shk` with handlers that succeed (exit status 0), and at the
unknown command of `-q archive.shk` (exit status 2, no handler). -/
theorem C16_exit_status_of_main_witness :
    (ProcessOptions allFeatures clearState (argvOf ["nulib2", "-x", "archive.shk"])).outcome =
      Outcome.ok ∧
    (main allFeatures (some clearState) some allFail
      (argvOf ["nulib2", "-x", "archive.shk"])).status = some 1 ∧
    main allFeatures (some clearState) some allFail (argvOf ["nulib2", "-x", "archive.shk"]) =
      { status := some 1, called := [Handler.DoExtract] } ∧
    main allFeatures (some clearState) some allSucceed
        (argvOf ["nulib2", "-x", "archive.shk"]) =
      { status := some 0, called := [Handler.DoExtract] } ∧
    (ProcessOptions allFeatures clearState
      (argvOf ["nulib2", "-q", "archive.shk"])).outcome.ret = some (-1) ∧
    (main allFeatures (some clearState) some allSucceed
      (argvOf ["nulib2", "-q", "archive.shk"])).status = some 2 ∧
    (main allFeatures (some clearState) some allSucceed
      (argvOf ["nulib2", "-q", "archive.shk"])).called = [] :=
  ⟨by decide,
    ((C16_exit_status_of_main allFeatures clearState some allFail
      (argvOf ["nulib2", "-x", "archive.shk"])).2.2.1 (by decide) _ rfl).2 (by decide),
    by decide, by decide, by decide,
    ((C16_exit_status_of_main allFeatures clearState some allSucceed
      (argvOf ["nulib2", "-q", "archive.shk"])).2.1 (by decide)).1,
    ((C16_exit_status_of_main allFeatures clearState some allSucceed
      (argvOf ["nulib2", "-q", "archive.shk"])).2.1 (by decide)).2⟩

/-! ## The first illegal modifier character -/

theorem tolower_ne_NUL {c : Char} (hc : c ≠ NUL) : tolower c ≠ NUL := by
  unfold tolower Char.toLower
  simp only []
  split
  · rename_i h
    generalize c.toNat = n at h
    obtain ⟨h1, h2⟩ := h
    have h1' : 65 ≤ n := h1
    interval_cases n <;> decide
  · exact hc

theorem applyModifier_ok_mem {feat : Features} {before : List Char} {c n : Char} {m m1 : Mach}
    {adv : Bool} (h : applyModifier feat before c n m = .ok (m1, adv)) :
    tolower c ∈ modifierAlphabet := by
  unfold applyModifier at h
  split at h
  case h_13 => cases h
  all_goals
    rename_i heq
    rw [heq]
    decide

theorem applyModifier_error_not_mem {feat : Features} {before : List Char} {c n : Char}
    {m : Mach} {e : Stop} (h : applyModifier feat before c n m = .error e)
    (hb : before ≠ []) : tolower c ∉ modifierAlphabet := by
  unfold applyModifier at h
  split at h
  case h_10 => split at h <;> split at h <;> cases h
  case h_11 =>
    split at h
    · exact absurd rfl hb
    · split at h <;> cases h
  case h_12 =>
    split at h
    · exact absurd rfl hb
    · split at h <;> cases h
  case h_13 h1 h2 h3 h4 h5 h6 h7 h8 h9 h10 h11 h12 =>
    intro hmem
    simp only [modifierAlphabet, List.mem_cons, List.mem_singleton, List.not_mem_nil,
      or_false] at hmem
    rcases hmem with h | h | h | h | h | h | h | h | h | h | h | h
    · exact h1 h
    · exact h2 h
    · exact h3 h
    · exact h4 h
    · exact h5 h
    · exact h6 h
    · exact h7 h
    · exact h8 h
    · exact h9 h
    · exact h10 h
    · exact h11 h
    · exact h12 h
  all_goals cases h

theorem valid_mem_alphabet {cmd : Command} {x : Char} (hv : IsValidModifier cmd x = true)
    (hx : x ≠ NUL) : x ∈ modifierAlphabet := by
  obtain ⟨row, hrow, hmem⟩ := mem_modifiers_of_valid hv hx
  have hall : ∀ r ∈ gValidCombos, ∀ y ∈ r.modifiers, y ∈ modifierAlphabet := by decide
  exact hall row (FindValidComboEntry_some hrow).1 x hmem

theorem specModifierError_of_mem {c : Char} (h : tolower c ∈ modifierAlphabet) :
    specModifierError c = ParseError.badModifier (tolower c) := by
  unfold specModifierError
  rw [if_pos h]

theorem specModifierError_of_not_mem {c : Char} (h : tolower c ∉ modifierAlphabet) :
    specModifierError c = ParseError.unknownModifier c := by
  unfold specModifierError
  rw [if_neg h]

/-- One step of the modifier loop on a character other than NUL: an illegal
character stops the scan with the spec's diagnostic, a legal one passes the
switch and the validity check. -/
theorem modifier_step {feat : Features} {before : List Char} {c n : Char} {m : Mach}
    (hb : before ≠ []) (hc : c ≠ NUL) :
    (illegalFor m.ps.command c = true →
      (applyModifier feat before c n m =
          .error (Stop.fail (specModifierError c)) ∨
        ∃ m2 adv, applyModifier feat before c n m = .ok (m2, adv) ∧
          m2.ps.command = m.ps.command ∧
          specModifierError c = ParseError.badModifier (tolower c) ∧
          IsValidModifier m2.ps.command (tolower c) = false ∧
          (adv = true → tolower c = 'z' ∧ n = 'z'))) ∧
    (illegalFor m.ps.command c = false →
      ∃ m2 adv, applyModifier feat before c n m = .ok (m2, adv) ∧
        m2.ps.command = m.ps.command ∧
        IsValidModifier m2.ps.command (tolower c) = true ∧
        (adv = true → tolower c = 'z' ∧ n = 'z')) := by
  constructor
  · intro hill
    have hinv : IsValidModifier m.ps.command (tolower c) = false := by
      simpa [illegalFor] using hill
    cases happ : applyModifier feat before c n m with
    | error e =>
      left
      rw [applyModifier_error happ hb,
        specModifierError_of_not_mem (applyModifier_error_not_mem happ hb)]
    | ok r =>
      obtain ⟨m2, adv⟩ := r
      obtain ⟨hcmd, hadv, -⟩ := applyModifier_ok happ
      right
      exact ⟨m2, adv, rfl, hcmd, specModifierError_of_mem (applyModifier_ok_mem happ),
        by rw [hcmd]; exact hinv, hadv⟩
  · intro hleg
    have hval : IsValidModifier m.ps.command (tolower c) = true := by
      simpa [illegalFor] using hleg
    have hmem : tolower c ∈ modifierAlphabet := valid_mem_alphabet hval (tolower_ne_NUL hc)
    cases happ : applyModifier feat before c n m with
    | error e => exact absurd hmem (applyModifier_error_not_mem happ hb)
    | ok r =>
      obtain ⟨m2, adv⟩ := r
      obtain ⟨hcmd, hadv, -⟩ := applyModifier_ok happ
      exact ⟨m2, adv, rfl, hcmd, by rw [hcmd]; exact hval, hadv⟩

theorem scanModifiers_first_illegal (feat : Features) :
    ∀ (n : Nat) (cs before : List Char) (m : Mach),
      cs.length ≤ n → before ≠ [] → NUL ∉ cs →
      (cs.find? (illegalFor m.ps.command) = none →
        ∃ m1, scanModifiers feat before cs m = .ok m1 ∧ m1.ps.command = m.ps.command) ∧
      (∀ c, cs.find? (illegalFor m.ps.command) = some c →
        ∃ m1, scanModifiers feat before cs m =
          .error (Stop.fail (specModifierError c), m1)) := by
  intro n
  induction n with
  | zero =>
    intro cs before m hlen _ _
    have hcs : cs = [] := List.length_eq_zero.mp (Nat.le_zero.mp hlen)
    subst hcs
    constructor
    · intro _
      exact ⟨m, by rw [scanModifiers], rfl⟩
    · intro c h
      cases h
  | succ n ih =>
    intro cs before m hlen hb hnul
    match cs, hlen, hnul with
    | [], _, _ =>
      constructor
      · intro _
        exact ⟨m, by rw [scanModifiers], rfl⟩
      · intro c h
        cases h
    | [c], _, hnul =>
      have hc : ¬ c = NUL := fun hc => hnul (by simp [hc])
      obtain ⟨hill, hleg⟩ := @modifier_step feat before c NUL m hb hc
      rw [scanModifiers]
      simp only [if_neg hc]
      cases hp : illegalFor m.ps.command c with
      | true =>
        constructor
        · intro h
          rw [List.find?_cons_of_pos _ hp] at h
          cases h
        · intro x h
          rw [List.find?_cons_of_pos _ hp] at h
          cases h
          rcases hill hp with happ | ⟨m2, adv, happ, -, hse, hinv, -⟩
          · rw [happ]
            exact ⟨m, rfl⟩
          · rw [happ]
            simp only [if_pos hinv]
            rw [hse]
            exact ⟨m2, rfl⟩
      | false =>
        obtain ⟨m2, adv, happ, hcmd, hval, -⟩ := hleg hp
        have hv : ¬ IsValidModifier m2.ps.command (tolower c) = false := by simp [hval]
        rw [happ]
        simp only [if_neg hv]
        constructor
        · intro _
          exact ⟨m2, rfl, hcmd⟩
        · intro x h
          rw [List.find?_cons_of_neg _ (by simp [hp])] at h
          cases h
    | c :: d :: rest, hlen, hnul =>
      have hc : ¬ c = NUL := fun hc => hnul (by simp [hc])
      have hnul1 : NUL ∉ d :: rest := fun h => hnul (List.mem_cons_of_mem _ h)
      have hnul2 : NUL ∉ rest := fun h => hnul1 (List.mem_cons_of_mem _ h)
      have hlen1 : (d :: rest).length ≤ n := by simp at hlen ⊢; omega
      have hlen2 : rest.length ≤ n := by simp at hlen ⊢; omega
      obtain ⟨hill, hleg⟩ := @modifier_step feat before c d m hb hc
      rw [scanModifiers]
      simp only [if_neg hc]
      cases hp : illegalFor m.ps.command c with
      | true =>
        constructor
        · intro h
          rw [List.find?_cons_of_pos _ hp] at h
          cases h
        · intro x h
          rw [List.find?_cons_of_pos _ hp] at h
          cases h
          rcases hill hp with happ | ⟨m2, adv, happ, -, hse, hinv, hadv⟩
          · rw [happ]
            exact ⟨m, rfl⟩
          · rw [happ, hse]
            cases adv with
            | true =>
              obtain ⟨hz, hd⟩ := hadv rfl
              have hdz : tolower d = tolower c := by rw [hz, hd]; rfl
              have hinv2 : IsValidModifier m2.ps.command (tolower d) = false := by
                rw [hdz]; exact hinv
              simp only [if_pos hinv2]
              rw [hdz]
              exact ⟨m2, rfl⟩
            | false =>
              simp only [if_pos hinv]
              exact ⟨m2, rfl⟩
      | false =>
        obtain ⟨m2, adv, happ, hcmd, hval, hadv⟩ := hleg hp
        have hfind : (c :: d :: rest).find? (illegalFor m.ps.command) =
            (d :: rest).find? (illegalFor m.ps.command) :=
          List.find?_cons_of_neg _ (by simp [hp])
        rw [happ, hfind]
        cases adv with
        | true =>
          obtain ⟨hz, hd⟩ := hadv rfl
          have hdz : tolower d = tolower c := by rw [hz, hd]; rfl
          have hv : ¬ IsValidModifier m2.ps.command (tolower d) = false := by
            rw [hdz]; simp [hval]
          have hpd : illegalFor m.ps.command d = false := by
            unfold illegalFor at hp ⊢
            rw [hdz]; exact hp
          have hfind2 : (d :: rest).find? (illegalFor m.ps.command) =
              rest.find? (illegalFor m.ps.command) :=
            List.find?_cons_of_neg _ (by simp [hpd])
          simp only [if_neg hv]
          rw [hfind2, ← hcmd]
          have hrec := ih rest (d :: c :: before) m2 hlen2 (by simp) hnul2
          exact hrec
        | false =>
          have hv : ¬ IsValidModifier m2.ps.command (tolower c) = false := by simp [hval]
          simp only [if_neg hv]
          rw [← hcmd]
          exact ih (d :: rest) (c :: before) m2 hlen1 (by simp) hnul1

theorem scanArgs_later_illegal (feat : Features) :
    ∀ (toks : List Token) (idx : Nat) (m : Mach) (c : Char), 1 < idx → WellFormed toks →
      ((toks.takeWhile isBundle).flatMap List.tail).find? (illegalFor m.ps.command) = some c →
      ∃ m1, scanArgs feat idx toks m = .error (Stop.fail (specModifierError c), m1) := by
  intro toks
  induction toks with
  | nil =>
    intro idx m c _ _ h
    cases h
  | cons tok toks ih =>
    intro idx m c hidx hwf h
    have hidx1 : ¬ idx = 1 := by omega
    have hwf1 : WellFormed toks := fun t ht => hwf t (List.mem_cons_of_mem _ ht)
    have hbreak : isBundle tok = false → False := by
      intro hb
      have htw : (tok :: toks).takeWhile isBundle = [] := by
        simp [List.takeWhile_cons, hb]
      rw [htw] at h
      cases h
    match tok, hwf, h, hbreak with
    | [], _, _, hbreak => exact (hbreak isBundle_nil).elim
    | [x], _, _, hbreak =>
      by_cases hx : x = '-'
      · subst hx
        exact (hbreak isBundle_hyphen).elim
      · exact (hbreak (isBundle_cons_of_ne _ hx)).elim
    | x :: d :: cs, hwf, h, hbreak =>
      by_cases hx : x = '-'
      · subst hx
        have h0 : ¬ (1 < idx ∧ charAt ('-' :: d :: cs) 0 ≠ '-') := by
          intro h; exact h.2 rfl
        have hnul : NUL ∉ d :: cs := fun h =>
          hwf _ (List.mem_cons_self _ _) (List.mem_cons_of_mem _ h)
        have hd : ¬ d = NUL := fun hd => hnul (by simp [hd])
        have htw : (('-' :: d :: cs) :: toks).takeWhile isBundle =
            ('-' :: d :: cs) :: toks.takeWhile isBundle := by
          simp [List.takeWhile_cons, isBundle_hyphen_cons]
        rw [htw, List.flatMap_cons, List.find?_append] at h
        have htail : ('-' :: d :: cs).tail = d :: cs := rfl
        rw [htail] at h
        rw [scanArgs]
        simp only [if_neg h0, skipHyphen, if_true, if_neg hidx1, if_neg hd]
        obtain ⟨hnone, hsome⟩ := scanModifiers_first_illegal feat (d :: cs).length (d :: cs)
          ['-'] m (le_refl _) (by simp) hnul
        cases hf : (d :: cs).find? (illegalFor m.ps.command) with
        | some c1 =>
          rw [hf] at h
          cases h
          obtain ⟨m1, hm1⟩ := hsome c hf
          rw [hm1]
          exact ⟨m1, rfl⟩
        | none =>
          rw [hf] at h
          obtain ⟨m1, hm1, hcmd⟩ := hnone hf
          rw [hm1]
          simp only []
          have h' : ((toks.takeWhile isBundle).flatMap List.tail).find?
              (illegalFor m1.ps.command) = some c := by
            rw [hcmd]; simpa using h
          exact ih (idx + 1) m1 c (by omega) hwf1 h'
      · exact (hbreak (isBundle_cons_of_ne _ hx)).elim

theorem ProcessOptions_first_illegal (feat : Features) (pState : NulibState)
    {argv : List Token} (hwf : WellFormed argv) (hlen : 3 ≤ argv.length) {cmd : Command}
    (hsel : specCommandOfToken (argv.getD 1 []) = some cmd) {c : Char}
    (hfirst : (scannedModifiers argv).find? (illegalFor cmd) = some c) :
    (ProcessOptions feat pState argv).outcome = Outcome.fail (specModifierError c) := by
  obtain ⟨prog, t1, t2, toks, rfl⟩ := exists_of_length_ge_three hlen
  have hwf1 : WellFormed (t1 :: t2 :: toks) := fun t ht => hwf t (List.mem_cons_of_mem _ ht)
  have hwf2 : WellFormed (t2 :: toks) := fun t ht => hwf1 t (List.mem_cons_of_mem _ ht)
  have hnul : NUL ∉ afterHyphen t1 := fun h =>
    hwf1 t1 (List.mem_cons_self _ _) (mem_afterHyphen h)
  have hspec : specCommandOfToken t1 = (afterHyphen t1).head?.bind selectCommand := by
    unfold specCommandOfToken
    congr 1
    funext c
    exact (selectCommand_eq_spec c).symm
  have hsel1 : (afterHyphen t1).head?.bind selectCommand = some cmd := by
    rw [← hspec]; exact hsel
  have hsc : scannedModifiers (prog :: t1 :: t2 :: toks) =
      (afterHyphen t1).tail ++ (((t2 :: toks).takeWhile isBundle).flatMap List.tail) := rfl
  rw [hsc, List.find?_append] at hfirst
  have h0 : ¬ (1 < 1 ∧ charAt t1 0 ≠ '-') := by
    intro h; exact absurd h.1 (by decide)
  rw [ProcessOptions_long, scanArgs, skipHyphen_eq]
  simp only [if_neg h0, if_true]
  generalize (skipHyphen t1).1 = before
  cases hcp : afterHyphen t1 with
  | nil =>
    rw [hcp] at hsel1
    cases hsel1
  | cons c0 cs =>
    rw [hcp] at hsel1 hnul hfirst
    have hsel2 : selectCommand c0 = some cmd := hsel1
    have hc0 : ¬ c0 = NUL := selectCommand_ne_NUL hsel2
    have hcs : NUL ∉ cs := fun h => hnul (List.mem_cons_of_mem _ h)
    have htail : (c0 :: cs).tail = cs := rfl
    rw [htail] at hfirst
    simp only [if_neg hc0, hsel2]
    obtain ⟨hnone, hsome⟩ := scanModifiers_first_illegal feat cs.length cs (c0 :: before)
      { ps := NState_SetCommand pState cmd, warnings := [] } (le_refl _) (by simp) hcs
    have hcmd0 : ({ ps := NState_SetCommand pState cmd, warnings := [] } : Mach).ps.command
        = cmd := rfl
    rw [hcmd0] at hnone hsome
    cases hf : cs.find? (illegalFor cmd) with
    | some c1 =>
      rw [hf] at hfirst
      cases hfirst
      obtain ⟨m1, hm1⟩ := hsome c hf
      rw [hm1]
    | none =>
      rw [hf] at hfirst
      obtain ⟨m1, hm1, hcmd⟩ := hnone hf
      rw [hm1]
      simp only []
      have h' : (((t2 :: toks).takeWhile isBundle).flatMap List.tail).find?
          (illegalFor m1.ps.command) = some c := by
        rw [hcmd]; simpa using hfirst
      obtain ⟨m2, hm2⟩ := scanArgs_later_illegal feat (t2 :: toks) (1 + 1) m1 c (by decide)
        hwf2 h'
      rw [hm2]

/-- C17: for an argument vector with at least two tokens after the program name
and a recognised command letter, when `c` is the first scanned modifier
character (left to right) that is not legal for the selected command,
`ProcessOptions` fails at it and returns -1: with the unknown-modifier
diagnostic when lowercase `c` is not in the modifier alphabet, and otherwise
with the illegal-modifier diagnostic naming lowercase `c`.  The outcome is not
the conflict, pipe or file-list diagnostic, and it is the same for every
feature set, starting state and argument vector that has the same token 1 and
the same modifier bundles, whatever its archive path and file specs. -/
theorem C17_first_illegal_modifier_fails (feat : Features) (pState : NulibState)
    (argv : List Token) (cmd : Command) (c : Char) (hwf : WellFormed argv)
    (hlen : 3 ≤ argv.length) (hsel : specCommandOfToken (argv.getD 1 []) = some cmd)
    (hfirst : (scannedModifiers argv).find? (illegalFor cmd) = some c) :
    (ProcessOptions feat pState argv).outcome = Outcome.fail (specModifierError c) ∧
    (ProcessOptions feat pState argv).outcome.ret = some (-1) ∧
    (tolower c ∉ modifierAlphabet →
      (ProcessOptions feat pState argv).outcome =
        Outcome.fail (ParseError.unknownModifier c)) ∧
    (tolower c ∈ modifierAlphabet →
      (ProcessOptions feat pState argv).outcome =
        Outcome.fail (ParseError.badModifier (tolower c))) ∧
    (ProcessOptions feat pState argv).outcome ≠ Outcome.fail ParseError.conflict ∧
    (ProcessOptions feat pState argv).outcome ≠ Outcome.fail ParseError.noPipe ∧
    (ProcessOptions feat pState argv).outcome ≠ Outcome.fail ParseError.needFiles ∧
    (∀ (feat1 : Features) (pState1 : NulibState) (argv1 : List Token),
      WellFormed argv1 → 3 ≤ argv1.length → argv1.getD 1 [] = argv.getD 1 [] →
      (argv1.drop 2).takeWhile isBundle = (argv.drop 2).takeWhile isBundle →
      (ProcessOptions feat1 pState1 argv1).outcome =
        (ProcessOptions feat pState argv).outcome) := by
  have hout := ProcessOptions_first_illegal feat pState hwf hlen hsel hfirst
  have hne : ∀ e, e.isModifierError = false →
      (ProcessOptions feat pState argv).outcome ≠ Outcome.fail e := by
    intro e he h
    rw [hout] at h
    cases h
    unfold specModifierError at he
    split at he <;> cases he
  refine ⟨hout, by rw [hout]; rfl, ?_, ?_, hne _ rfl, hne _ rfl, hne _ rfl, ?_⟩
  · intro h
    rw [hout, specModifierError_of_not_mem h]
  · intro h
    rw [hout, specModifierError_of_mem h]
  · intro feat1 pState1 argv1 hwf1 hlen1 h1 h2
    have hsel1 : specCommandOfToken (argv1.getD 1 []) = some cmd := by rw [h1]; exact hsel
    have hfirst1 : (scannedModifiers argv1).find? (illegalFor cmd) = some c := by
      unfold scannedModifiers at hfirst ⊢
      rw [h1, h2]
      exact hfirst
    rw [hout, ProcessOptions_first_illegal feat1 pState1 hwf1 hlen1 hsel1 hfirst1]

/-- C17 at `-a -rB -0 -z -`, where `B` stops the parse before the conflict, the
pipe and the file-list checks, and at `-xq archive.shk`, where `q` is no
modifier letter at all. -/
theorem C17_first_illegal_modifier_fails_witness :
    WellFormed (argvOf ["nulib2", "-a", "-rB", "-0", "-z", "-"]) ∧
    3 ≤ (argvOf ["nulib2", "-a", "-rB", "-0", "-z", "-"]).length ∧
    specCommandOfToken ((argvOf ["nulib2", "-a", "-rB", "-0", "-z", "-"]).getD 1 []) =
      some kCommandAdd ∧
    (scannedModifiers (argvOf ["nulib2", "-a", "-rB", "-0", "-z", "-"])).find?
      (illegalFor kCommandAdd) = some 'B' ∧
    (ProcessOptions allFeatures clearState
      (argvOf ["nulib2", "-a", "-rB", "-0", "-z", "-"])).outcome =
        Outcome.fail (ParseError.badModifier 'b') ∧
    (scannedModifiers (argvOf ["nulib2", "-xq", "archive.shk"])).find?
      (illegalFor kCommandExtract) = some 'q' ∧
    (ProcessOptions allFeatures clearState (argvOf ["nulib2", "-xq", "archive.shk"])).outcome =
      Outcome.fail (ParseError.unknownModifier 'q') :=
  ⟨by decide, by decide, by decide, by decide,
    (C17_first_illegal_modifier_fails allFeatures clearState
      (argvOf ["nulib2", "-a", "-rB", "-0", "-z", "-"]) kCommandAdd 'B'
      (by decide) (by decide) (by decide) (by decide)).2.2.2.1 (by decide),
    by decide,
    (C17_first_illegal_modifier_fails allFeatures clearState
      (argvOf ["nulib2", "-xq", "archive.shk"]) kCommandExtract 'q'
      (by decide) (by decide) (by decide) (by decide)).2.2.1 (by decide)⟩

end Nulib2
